import Mathlib

/-!
Verification of the document-processing pipeline of the PDF OCR application
(`ocr_app.py`): quality scoring, text search, structured-data extraction,
per-page OCR error handling, image preprocessing, the extraction-history
store, and the JSON export round trip.

The Python source is shallowly embedded: pure functions become Lean
functions over `String` / `List`; machine floats in the quality scorer are
modelled by exact rationals (all constants involved, 100/50/30/20/0.7/2/15,
are exactly representable and only comparisons depend on the ratio values);
fallible external calls (rasterizer, OCR engine, image transforms) become
`Except`-valued oracles supplied as arguments. Python string primitives
(`split`, `strip`, `lower`, the `in` operator) are modelled by structurally
recursive functions over character lists so that every definition evaluates
inside the kernel.
-/

/-! ## Python string primitives -/

/-- Split a character list at every character satisfying `p`, keeping empty
pieces: the model of Python `str.split(sep)` for a one-character separator
class. -/
def splitListP (p : Char → Bool) : List Char → List (List Char)
  | [] => [[]]
  | c :: t =>
      if p c then [] :: splitListP p t
      else
        match splitListP p t with
        | [] => [[c]]
        | h :: r => (c :: h) :: r

/-- Python `text.split('\n')`: split into lines at newline characters,
keeping empty lines. -/
def splitLines (text : String) : List String :=
  (splitListP (fun c => c = '\n') text.data).map String.mk

/-- Python `str.strip()`: drop leading and trailing whitespace. -/
def pyStrip (s : String) : String :=
  String.mk (((s.data.dropWhile Char.isWhitespace).reverse.dropWhile
    Char.isWhitespace).reverse)

/-- Python `str.lower()` (ASCII case folding, as used on the ASCII search
examples). -/
def pyLower (s : String) : String :=
  String.mk (s.data.map Char.toLower)

/-- Python `str.split()` with no argument: split on whitespace runs,
dropping empty pieces. -/
def pyWords (text : String) : List String :=
  ((splitListP Char.isWhitespace text.data).map String.mk).filter (fun w => w ≠ "")

/-- Python substring containment `q in s` on character lists: `q` occurs as a
contiguous run somewhere in `s`. -/
def strContainsAux (q : List Char) : List Char → Bool
  | [] => q.isEmpty
  | c :: t => q.isPrefixOf (c :: t) || strContainsAux q t

/-- Python `query in line` on strings. -/
def strContains (s q : String) : Bool :=
  strContainsAux q.data s.data

/-! ## Quality scorer (`calculate_quality_score`, ocr_app.py lines 177-197) -/

/-- Model of `sum(c.isalnum() or c.isspace() for c in text)` from the scorer. -/
def alnumSpaceCount (text : String) : Nat :=
  text.data.countP (fun c => c.isAlphanum || c.isWhitespace)

/-- Model of `alphanumeric_ratio = sum(...) / max(len(text), 1)`. -/
def alnumRatio (text : String) : ℚ :=
  (alnumSpaceCount text : ℚ) / ((max text.length 1 : Nat) : ℚ)

/-- Model of `avg_word_length = sum(len(w) for w in words) / len(words)`
(only read when the word list is nonempty). -/
def avgWordLen (text : String) : ℚ :=
  (((pyWords text).map String.length).sum : ℚ) / ((pyWords text).length : ℚ)

/-- Function `calculate_quality_score` (ocr_app.py lines 177-197): start from 100,
subtract 50 / 30 / 20 for the three independent checks, clamp to [0,100]. -/
def calculate_quality_score (text : String) : ℚ :=
  let score : ℚ := 100
  let score := if (pyStrip text).length < 10 then score - 50 else score
  let score := if alnumRatio text < 7/10 then score - 30 else score
  let score :=
    if (pyWords text).isEmpty then score
    else if avgWordLen text < 2 ∨ avgWordLen text > 15 then score - 20 else score
  max 0 (min 100 score)

/-- Spec-side restatement of §4.3: 100 minus the sum of the applicable
deductions, clamped to [0,100]. Written from the spec text, to be compared
with `calculate_quality_score`. -/
def quality_score_spec (text : String) : ℚ :=
  max 0 (min 100 (100 -
    ((if (pyStrip text).length < 10 then (50 : ℚ) else 0) +
     (if alnumRatio text < 7/10 then (30 : ℚ) else 0) +
     (if ¬ (pyWords text).isEmpty ∧ (avgWordLen text < 2 ∨ avgWordLen text > 15)
        then (20 : ℚ) else 0))))

/-- Shared characterization: the sequential subtractions of the source equal
100 minus the sum of the three independent deductions, clamped. -/
lemma calculate_quality_score_eq (text : String) :
    calculate_quality_score text = quality_score_spec text := by
  unfold calculate_quality_score quality_score_spec
  by_cases h1 : (pyStrip text).length < 10 <;>
    by_cases h2 : alnumRatio text < 7/10 <;>
      by_cases h3 : (pyWords text).isEmpty <;>
        by_cases h4 : avgWordLen text < 2 ∨ avgWordLen text > 15 <;>
          simp [h1, h2, h3, h4] <;> ring_nf

/-- C3: for every text string, `calculate_quality_score` equals 100 minus the
sum of the applicable independent deductions — 50 for trimmed length < 10,
30 for alphanumeric-or-whitespace ratio (denominator floored at 1) below 0.7,
20 for nonempty token list with mean token length < 2 or > 15 — clamped
to [0,100]. -/
theorem quality_score_is_clamped_deduction_sum (text : String) :
    calculate_quality_score text =
      max 0 (min 100 (100 -
        ((if (pyStrip text).length < 10 then (50 : ℚ) else 0) +
         (if alnumRatio text < 7/10 then (30 : ℚ) else 0) +
         (if ¬ (pyWords text).isEmpty ∧ (avgWordLen text < 2 ∨ avgWordLen text > 15)
            then (20 : ℚ) else 0)))) :=
  calculate_quality_score_eq text

/-- C4: for every text string, including the empty string, the quality score
lies in the closed interval [0, 100]. -/
theorem quality_score_mem_Icc (text : String) :
    0 ≤ calculate_quality_score text ∧ calculate_quality_score text ≤ 100 := by
  unfold calculate_quality_score
  constructor
  · exact le_max_left 0 _
  · exact max_le (by norm_num) (min_le_left _ _)

/-- C10: for every text string, the quality score lies in the finite set
\x7b0, 20, 30, 50, 70, 80, 100\x7d reachable as 100 minus a sum of a subset
of the fixed deductions \x7b50, 30, 20\x7d. -/
theorem quality_score_mem_finite_set (text : String) :
    calculate_quality_score text = 0 ∨ calculate_quality_score text = 20 ∨
    calculate_quality_score text = 30 ∨ calculate_quality_score text = 50 ∨
    calculate_quality_score text = 70 ∨ calculate_quality_score text = 80 ∨
    calculate_quality_score text = 100 := by
  rw [calculate_quality_score_eq]
  unfold quality_score_spec
  by_cases h1 : (pyStrip text).length < 10 <;>
    by_cases h2 : alnumRatio text < 7/10 <;>
      by_cases h3 : (pyWords text).isEmpty <;>
        by_cases h4 : avgWordLen text < 2 ∨ avgWordLen text > 15 <;>
          simp [h1, h2, h3, h4] <;> norm_num

/-! ## Text search (`search_in_text`, ocr_app.py lines 258-273) -/

/-- The per-line match test of `search_in_text`: compare the line against the
query, lowercasing both when the search is case-insensitive. -/
def lineMatch (query : String) (case_sensitive : Bool) (line : String) : Bool :=
  let search_line := if case_sensitive then line else pyLower line
  let search_query := if case_sensitive then query else pyLower query
  strContains search_line search_query

/-- Function `search_in_text` (ocr_app.py lines 258-273): empty query yields no
matches; otherwise collect `(line number, line)` pairs, 1-indexed, for every
line of `text.split('\n')` containing the query. -/
def search_in_text (text query : String) (case_sensitive : Bool) : List (Nat × String) :=
  if query = "" then []
  else ((splitLines text).enumFrom 1).filter (fun p => lineMatch query case_sensitive p.2)

lemma pairwise_fst_lt_enumFrom {α : Type} (l : List α) (n : Nat) :
    (l.enumFrom n).Pairwise (fun a b => a.1 < b.1) := by
  induction l generalizing n with
  | nil => exact List.Pairwise.nil
  | cons a t ih =>
      refine List.Pairwise.cons ?_ (ih (n + 1))
      intro b hb
      have hle : n + 1 ≤ b.1 := by
        have := (@List.mk_mem_enumFrom_iff_le_and_getElem?_sub _ (n + 1) b.1
          b.2 t).1 (by simpa using hb)
        exact this.1
      omega

/-- C5 counterexample: the claim asserts that the case-sensitive search for
"hello" in "Hello\nworld\nHELLO again" returns only line 1, but no line
contains the lowercase string "hello" literally, so the search returns the
empty list. -/
theorem search_in_text_case_sensitive_counterexample :
    search_in_text "Hello\nworld\nHELLO again" "hello" true = [] ∧
    search_in_text "Hello\nworld\nHELLO again" "hello" true ≠ [(1, "Hello")] := by
  constructor <;> decide

/-- C5 (amended): `search_in_text` splits the text into 1-indexed lines and
returns exactly the ordered pairs (line number, original line) for lines
containing the query literally (lowercasing both sides when
case-insensitive); the empty query returns no matches; and on
"Hello\nworld\nHELLO again" with query "hello" the case-insensitive search
returns lines 1 and 3 while the case-sensitive one returns no matches. -/
theorem search_in_text_spec (text query : String) (case_sensitive : Bool) :
    search_in_text text "" case_sensitive = [] ∧
    (∀ i l, (i, l) ∈ search_in_text text query case_sensitive ↔
      query ≠ "" ∧ 1 ≤ i ∧ (splitLines text)[i - 1]? = some l ∧
        lineMatch query case_sensitive l = true) ∧
    (search_in_text text query case_sensitive).Pairwise (fun a b => a.1 < b.1) ∧
    search_in_text "Hello\nworld\nHELLO again" "hello" false =
      [(1, "Hello"), (3, "HELLO again")] ∧
    search_in_text "Hello\nworld\nHELLO again" "hello" true = [] := by
  refine ⟨by simp [search_in_text], ?_, ?_, by decide, by decide⟩
  · intro i l
    by_cases hq : query = ""
    · simp [search_in_text, hq]
    · constructor
      · intro hmem
        rw [search_in_text, if_neg hq] at hmem
        have h2 := List.mem_filter.1 hmem
        have h3 := List.mk_mem_enumFrom_iff_le_and_getElem?_sub.1 h2.1
        exact ⟨hq, h3.1, by simpa using h3.2, by simpa using h2.2⟩
      · rintro ⟨-, h1, h2, h3⟩
        rw [search_in_text, if_neg hq]
        exact List.mem_filter.2
          ⟨List.mk_mem_enumFrom_iff_le_and_getElem?_sub.2 ⟨h1, by simpa using h2⟩,
           by simpa using h3⟩
  · by_cases hq : query = ""
    · simp [search_in_text, hq]
    · rw [search_in_text, if_neg hq]
      exact List.Pairwise.sublist (List.filter_sublist _)
        (pairwise_fst_lt_enumFrom _ 1)

/-! ## OCR invoker (`extract_text_from_pdf`, ocr_app.py lines 384-413) -/

/-- Outcome of one per-page OCR engine call (`pytesseract.image_to_string`):
either the recognized page text or a raised exception message. -/
inductive OcrOutcome where
  | ok (text : String)
  | err (msg : String)
deriving DecidableEq

/-- The 60-character page-delimiter row `'='*60`. -/
def sepRow : String := String.mk (List.replicate 60 '=')

/-- Text appended for page `idx` (0-based) by the per-page loop: a banner
plus the stripped page text on success, an ERROR banner only when the OCR
call raises. -/
def renderPage : Nat × OcrOutcome → String
  | (idx, .ok page_text) =>
      "\n" ++ sepRow ++ "\nPAGE " ++ toString (idx + 1) ++ "\n" ++ sepRow ++ "\n\n"
        ++ pyStrip page_text ++ "\n\n"
  | (idx, .err _) =>
      "\n" ++ sepRow ++ "\nPAGE " ++ toString (idx + 1) ++ " - ERROR\n" ++ sepRow ++ "\n\n"

/-- Function `extract_text_from_pdf` (ocr_app.py lines 384-413), with the external
rasterizer and per-page OCR engine abstracted into the argument: a failed
`convert_from_bytes` is `Except.error`, a successful one yields one
`OcrOutcome` per page. The per-page loop accumulates banner-delimited page
text; a per-page failure appends an ERROR banner and the loop continues;
a document-level failure returns `("", 0, some message)`. -/
def extract_text_from_pdf (raster : Except String (List OcrOutcome)) :
    String × Nat × Option String :=
  match raster with
  | .error e => ("", 0, some e)
  | .ok pages =>
      (pages.enum.foldl (fun acc p => acc ++ renderPage p) "", pages.length, none)

lemma foldl_render_factor (l : List (Nat × OcrOutcome)) (s : String) :
    l.foldl (fun acc p => acc ++ renderPage p) s =
      s ++ l.foldl (fun acc p => acc ++ renderPage p) "" := by
  induction l generalizing s with
  | nil => simp
  | cons a t ih =>
      simp only [List.foldl_cons]
      rw [ih (s ++ renderPage a), ih ("" ++ renderPage a),
        String.empty_append, String.append_assoc]

/-- C2: a document-level rasterization failure makes `extract_text_from_pdf`
return exactly empty text, zero pages, and a non-null error string — never
partial text. -/
theorem extract_text_from_pdf_document_failure (e : String) :
    extract_text_from_pdf (.error e) = ("", 0, some e) ∧
    (extract_text_from_pdf (.error e)).2.2 ≠ none := by
  exact ⟨rfl, by simp [extract_text_from_pdf]⟩

/-- C2 witness at a concrete failure message. -/
theorem extract_text_from_pdf_document_failure_witness :
    extract_text_from_pdf (.error "rasterization failed") =
      ("", 0, some "rasterization failed") :=
  (extract_text_from_pdf_document_failure "rasterization failed").1

set_option maxRecDepth 40000 in
/-- C1: when rasterization succeeds with N pages and some page's OCR call
raises, `extract_text_from_pdf` still returns page count N and a null error;
the failing page contributes exactly one ERROR banner (with its 1-based
index) while pages before it are rendered unchanged and all pages after it
are still processed in order; and in the concrete 3-page document whose
page 2 fails, the returned text has an ERROR banner for page 2 only while
pages 1 and 3 carry their recognized stripped text. -/
theorem extract_text_from_pdf_page_error_isolated
    (pre post : List OcrOutcome) (e : String) :
    (∀ pages : List OcrOutcome,
      (extract_text_from_pdf (.ok pages)).2.1 = pages.length ∧
      (extract_text_from_pdf (.ok pages)).2.2 = none) ∧
    (extract_text_from_pdf (.ok (pre ++ .err e :: post))).1 =
      (extract_text_from_pdf (.ok pre)).1 ++
        renderPage (pre.length, .err e) ++
        (post.enumFrom (pre.length + 1)).foldl (fun acc p => acc ++ renderPage p) "" ∧
    strContains (extract_text_from_pdf
      (.ok [.ok "Alpha scan", .err "boom", .ok "Gamma scan"])).1 "PAGE 2 - ERROR" = true ∧
    strContains (extract_text_from_pdf
      (.ok [.ok "Alpha scan", .err "boom", .ok "Gamma scan"])).1 "PAGE 1 - ERROR" = false ∧
    strContains (extract_text_from_pdf
      (.ok [.ok "Alpha scan", .err "boom", .ok "Gamma scan"])).1 "PAGE 3 - ERROR" = false ∧
    strContains (extract_text_from_pdf
      (.ok [.ok "Alpha scan", .err "boom", .ok "Gamma scan"])).1 "Alpha scan" = true ∧
    strContains (extract_text_from_pdf
      (.ok [.ok "Alpha scan", .err "boom", .ok "Gamma scan"])).1 "Gamma scan" = true ∧
    (extract_text_from_pdf
      (.ok [.ok "Alpha scan", .err "boom", .ok "Gamma scan"])).2.1 = 3 ∧
    (extract_text_from_pdf
      (.ok [.ok "Alpha scan", .err "boom", .ok "Gamma scan"])).2.2 = none := by
  refine ⟨fun pages => ⟨rfl, rfl⟩, ?_, by decide, by decide, by decide, by decide,
    by decide, by decide, rfl⟩
  have h1 : (pre ++ OcrOutcome.err e :: post).enum
      = pre.enum ++ (pre.length, OcrOutcome.err e) :: post.enumFrom (pre.length + 1) := by
    show List.enumFrom 0 (pre ++ OcrOutcome.err e :: post) = _
    rw [List.enumFrom_append, List.enumFrom_cons]
    simp [List.enum]
  simp only [extract_text_from_pdf, h1, List.foldl_append, List.foldl_cons]
  rw [foldl_render_factor]

/-! ## Image preprocessor (`preprocess_image`, ocr_app.py lines 151-172) -/

/-- The external PIL operations used by `preprocess_image`, each of which may
raise: grayscale conversion `convert('L')`, contrast enhancement, sharpness
enhancement, and the median filter. Numeric parameters (contrast factor,
sharpness factor, filter size) are passed through. -/
structure ImageOps (Image : Type) where
  convertL : Image → Except String Image
  enhanceContrast : Image → ℚ → Except String Image
  enhanceSharpness : Image → ℚ → Except String Image
  medianFilter : Image → Nat → Except String Image

/-- Function `preprocess_image` (ocr_app.py lines 151-172): when `enhance` is false
return the image unchanged; otherwise grayscale, contrast 2.0, sharpness
1.5, and (when `denoise`) a size-3 median filter; a raise at any step makes
the surrounding `except` return the current value of the `image` variable,
i.e. the most recently obtained image. -/
def preprocess_image {Image : Type} (ops : ImageOps Image)
    (image : Image) (enhance denoise : Bool) : Image :=
  if enhance then
    match ops.convertL image with
    | .error _ => image
    | .ok i1 =>
      match ops.enhanceContrast i1 2 with
      | .error _ => i1
      | .ok i2 =>
        match ops.enhanceSharpness i2 (3/2) with
        | .error _ => i2
        | .ok i3 =>
          if denoise then
            match ops.medianFilter i3 3 with
            | .error _ => i3
            | .ok i4 => i4
          else i3
  else image

/-- C7: `preprocess_image` is a total function (it never propagates an
exception): with `enhance` false it returns the input unchanged, and a raise
in any transformation step yields the most recently obtained image. -/
theorem preprocess_image_degrades_gracefully {Image : Type} (ops : ImageOps Image)
    (image : Image) (denoise : Bool) :
    preprocess_image ops image false denoise = image ∧
    (∀ e, ops.convertL image = .error e →
      preprocess_image ops image true denoise = image) ∧
    (∀ i1 e, ops.convertL image = .ok i1 →
      ops.enhanceContrast i1 2 = .error e →
      preprocess_image ops image true denoise = i1) ∧
    (∀ i1 i2 e, ops.convertL image = .ok i1 →
      ops.enhanceContrast i1 2 = .ok i2 →
      ops.enhanceSharpness i2 (3/2) = .error e →
      preprocess_image ops image true denoise = i2) ∧
    (∀ i1 i2 i3 e, ops.convertL image = .ok i1 →
      ops.enhanceContrast i1 2 = .ok i2 →
      ops.enhanceSharpness i2 (3/2) = .ok i3 →
      ops.medianFilter i3 3 = .error e →
      preprocess_image ops image true true = i3) ∧
    (∀ i1 i2 i3, ops.convertL image = .ok i1 →
      ops.enhanceContrast i1 2 = .ok i2 →
      ops.enhanceSharpness i2 (3/2) = .ok i3 →
      preprocess_image ops image true false = i3) ∧
    (∀ i1 i2 i3 i4, ops.convertL image = .ok i1 →
      ops.enhanceContrast i1 2 = .ok i2 →
      ops.enhanceSharpness i2 (3/2) = .ok i3 →
      ops.medianFilter i3 3 = .ok i4 →
      preprocess_image ops image true true = i4) := by
  refine ⟨rfl, ?_, ?_, ?_, ?_, ?_, ?_⟩
  · intro e h1
    simp [preprocess_image, h1]
  · intro i1 e h1 h2
    simp [preprocess_image, h1, h2]
  · intro i1 i2 e h1 h2 h3
    simp [preprocess_image, h1, h2, h3]
  · intro i1 i2 i3 e h1 h2 h3 h4
    simp [preprocess_image, h1, h2, h3, h4]
  · intro i1 i2 i3 h1 h2 h3
    simp [preprocess_image, h1, h2, h3]
  · intro i1 i2 i3 i4 h1 h2 h3 h4
    simp [preprocess_image, h1, h2, h3, h4]

/-- Concrete operations for the C7 witness: grayscale succeeds, contrast
raises, the remaining steps would succeed. -/
def witnessOps : ImageOps Nat where
  convertL := fun i => .ok (i + 1)
  enhanceContrast := fun _ _ => .error "contrast failed"
  enhanceSharpness := fun i _ => .ok (i + 3)
  medianFilter := fun i _ => .ok (i + 4)

/-- C7 witness: with `enhance` false the image is unchanged, and when the
contrast step raises the grayscale image obtained so far is returned. -/
theorem preprocess_image_degrades_gracefully_witness :
    preprocess_image witnessOps 10 false true = 10 ∧
    preprocess_image witnessOps 10 true true = 11 :=
  ⟨(preprocess_image_degrades_gracefully witnessOps 10 true).1,
   (preprocess_image_degrades_gracefully witnessOps 10 true).2.2.1 11
     "contrast failed" rfl rfl⟩

/-! ## History store (`extractions` table: ocr_app.py lines 96-146, 768-775,
830, 855-870) -/

/-- One row of the `extractions` table, columns as created in
`init_database` (lines 102-115). -/
structure ExtractionRow where
  id : Nat
  filename : String
  timestamp : String
  page_count : Nat
  word_count : Nat
  character_count : Nat
  language : String
  extracted_text : String
  processing_time : ℚ
  quality_score : ℚ
deriving DecidableEq

/-- The SQLite store: persisted rows plus the autoincrement counter. -/
structure HistoryStore where
  nextId : Nat
  rows : List ExtractionRow
deriving DecidableEq

def emptyStore : HistoryStore := ⟨1, []⟩

/-- Inputs of one `save_to_database` call: filename, text, the metadata
fields, and the `datetime.now().isoformat()` timestamp taken at save
time. -/
structure SaveInput where
  filename : String
  timestamp : String
  page_count : Nat
  word_count : Nat
  character_count : Nat
  language : String
  extracted_text : String
  processing_time : ℚ
  quality_score : ℚ

/-- Function `save_to_database` (lines 122-146): `INSERT INTO extractions`, the
autoincrement primary key assigning the next id. -/
def save_to_database (s : HistoryStore) (inp : SaveInput) : HistoryStore :=
  ⟨s.nextId + 1,
   s.rows ++ [⟨s.nextId, inp.filename, inp.timestamp, inp.page_count,
     inp.word_count, inp.character_count, inp.language, inp.extracted_text,
     inp.processing_time, inp.quality_score⟩]⟩

/-- Saving a batch of records in order. -/
def saveAll (s : HistoryStore) (inps : List SaveInput) : HistoryStore :=
  inps.foldl save_to_database s

/-- History mode `SELECT ... FROM extractions ORDER BY timestamp DESC`
(lines 768-775). -/
def listAll (s : HistoryStore) : List ExtractionRow :=
  s.rows.mergeSort (fun a b => decide (b.timestamp ≤ a.timestamp))

/-- Query `SELECT * FROM extractions WHERE id = ?` (line 830). -/
def getById (s : HistoryStore) (i : Nat) : Option ExtractionRow :=
  s.rows.find? (fun r => r.id = i)

/-- Statement `DELETE FROM extractions WHERE id = ?` (line 856). -/
def deleteOne (s : HistoryStore) (i : Nat) : HistoryStore :=
  ⟨s.nextId, s.rows.filter (fun r => r.id ≠ i)⟩

/-- Statement `DELETE FROM extractions` (line 867, the confirmed clear-all). -/
def deleteAll (s : HistoryStore) : HistoryStore :=
  ⟨s.nextId, []⟩

lemma saveAll_rows_length (inps : List SaveInput) (s : HistoryStore) :
    (saveAll s inps).rows.length = s.rows.length + inps.length := by
  induction inps generalizing s with
  | nil => simp [saveAll]
  | cons a t ih =>
      simp only [saveAll, List.foldl_cons] at *
      rw [ih]
      simp [save_to_database]
      omega

lemma find_filter_ne_eq_none (l : List ExtractionRow) (i : Nat) :
    (l.filter (fun r => r.id ≠ i)).find? (fun r => r.id = i) = none := by
  induction l with
  | nil => rfl
  | cons r t ih =>
      by_cases h : r.id = i
      · simp [List.filter_cons, h, ih]
      · simp [List.filter_cons, h, List.find?_cons, ih]

/-- C8: after saving N records into the empty store, listing returns exactly
N records; for every store, the listing is a permutation of the stored rows
ordered by timestamp descending; deleting one record by id then looking that
id up yields not-found; and delete-all leaves the store empty. -/
theorem history_store_spec (inps : List SaveInput) (s : HistoryStore) (i : Nat) :
    (listAll (saveAll emptyStore inps)).length = inps.length ∧
    (listAll s).Perm s.rows ∧
    (listAll s).Pairwise (fun a b => b.timestamp ≤ a.timestamp) ∧
    getById (deleteOne s i) i = none ∧
    (deleteAll s).rows = [] := by
  refine ⟨?_, ?_, ?_, ?_, rfl⟩
  · simp [listAll, saveAll_rows_length, emptyStore]
  · exact List.mergeSort_perm s.rows _
  · have h := @List.sorted_mergeSort ExtractionRow
      (fun a b : ExtractionRow => decide (b.timestamp ≤ a.timestamp))
      (fun a b c hab hbc => by
        simp only [decide_eq_true_eq] at *
        exact le_trans hbc hab)
      (fun a b => by
        simp only [Bool.or_eq_true, decide_eq_true_eq]
        exact le_total b.timestamp a.timestamp)
      s.rows
    exact h.imp (fun hab => of_decide_eq_true hab)
  · exact find_filter_ne_eq_none s.rows i

/-! ## Structured-data extractor (`extract_key_data`, ocr_app.py
lines 229-253): a backtracking regex matcher covering the four entity
patterns, with Python priority order (leftmost match, alternation left
first, greedy quantifiers). -/

/-- Regex syntax needed by the four patterns: character classes,
concatenation, left-priority alternation, greedy star, and the word
boundary `\b`. -/
inductive RE where
  | eps
  | cls (p : Char → Bool)
  | seq (a b : RE)
  | alt (a b : RE)
  | star (a : RE)
  | wordB

/-- Word characters for `\b`: `[A-Za-z0-9_]`. -/
def isWordChar (c : Char) : Bool := c.isAlphanum || c = '_'

/-- Assertion `\b` holds between the previous character (none at the start) and the
rest of the input when exactly one side is a word character. -/
def atBoundary (prev : Option Char) (s : List Char) : Bool :=
  let pw := match prev with | none => false | some c => isWordChar c
  let nw := match s with | [] => false | c :: _ => isWordChar c
  pw != nw

/-- All ways `r` can match a prefix of `s`, as (matched, new previous
character, rest) triples, listed in Python backtracking priority order:
alternation tries the left branch first and `star` is greedy. `prev` is the
character before the current position, for `\b`. `fuel` bounds recursion
depth; concrete calls supply enough for their input. -/
def matchRE : Nat → RE → Option Char → List Char →
    List (List Char × Option Char × List Char)
  | 0, _, _, _ => []
  | _ + 1, .eps, prev, s => [([], prev, s)]
  | _ + 1, .cls p, _, s =>
      match s with
      | [] => []
      | c :: t => if p c then [([c], some c, t)] else []
  | fuel + 1, .seq a b, prev, s =>
      (matchRE fuel a prev s).flatMap fun x =>
        (matchRE fuel b x.2.1 x.2.2).map fun y => (x.1 ++ y.1, y.2.1, y.2.2)
  | fuel + 1, .alt a b, prev, s => matchRE fuel a prev s ++ matchRE fuel b prev s
  | fuel + 1, .star a, prev, s =>
      ((matchRE fuel a prev s).filter (fun x => !x.1.isEmpty)).flatMap
        (fun x => (matchRE fuel (.star a) x.2.1 x.2.2).map
          fun y => (x.1 ++ y.1, y.2.1, y.2.2))
        ++ [([], prev, s)]
  | _ + 1, .wordB, prev, s => if atBoundary prev s then [([], prev, s)] else []

/-- Scanning loop of `re.findall`: at each position take the first (highest
priority) match if any and continue after it, otherwise advance one
character. `mfuel` is the matcher depth bound, `fuel` bounds positions. -/
def findallAux (r : RE) (mfuel : Nat) : Nat → Option Char → List Char →
    List (List Char)
  | 0, _, _ => []
  | fuel + 1, prev, s =>
      match (matchRE mfuel r prev s).head? with
      | some (m, p1, rest) =>
          if m.isEmpty then
            match s with
            | [] => [m]
            | c :: t => m :: findallAux r mfuel fuel (some c) t
          else m :: findallAux r mfuel fuel p1 rest
      | none =>
          match s with
          | [] => []
          | c :: t => findallAux r mfuel fuel (some c) t

/-- Model of `re.findall(pattern, text)` for a pattern without capturing groups. -/
def findall (r : RE) (text : String) : List String :=
  (findallAux r ((text.length + 1) * 60 + 100) (text.length + 1)
    none text.data).map String.mk

def RE.chr (c : Char) : RE := .cls (fun x => x = c)

/-- Quantifier `x+` (one or more, greedy). -/
def RE.plus (a : RE) : RE := .seq a (.star a)

/-- Quantifier `x?` (optional, greedy). -/
def RE.opt (a : RE) : RE := .alt a .eps

/-- Digit class `\d`. -/
def reDigit : RE := .cls Char.isDigit

/-- Email pattern `\b[A-Za-z0-9._%+-]+@[A-Za-z0-9.-]+\.[A-Z|a-z]\x7b2,\x7d\b` (line 234). -/
def emailRE : RE :=
  .seq .wordB (.seq
    (RE.plus (.cls (fun c => c.isAlphanum || c = '.' || c = '_' || c = '%'
      || c = '+' || c = '-')))
    (.seq (RE.chr '@') (.seq
      (RE.plus (.cls (fun c => c.isAlphanum || c = '.' || c = '-')))
      (.seq (RE.chr '.') (.seq
        (.cls (fun c => c.isAlpha || c = '|'))
        (.seq (.cls (fun c => c.isAlpha || c = '|'))
          (.seq (.star (.cls (fun c => c.isAlpha || c = '|'))) .wordB)))))))

/-- Phone pattern `\b\d\x7b3\x7d[-.]?\d\x7b3\x7d[-.]?\d\x7b4\x7d\b` (line 239). -/
def phoneRE : RE :=
  .seq .wordB (.seq
    (.seq reDigit (.seq reDigit reDigit))
    (.seq (RE.opt (.cls (fun c => c = '-' || c = '.')))
      (.seq (.seq reDigit (.seq reDigit reDigit))
        (.seq (RE.opt (.cls (fun c => c = '-' || c = '.')))
          (.seq (.seq reDigit (.seq reDigit (.seq reDigit reDigit))) .wordB)))))

/-- Date pattern of line 244: one or two digits, a hyphen or slash, one or
two digits, a hyphen or slash, then two to four digits; `\x7bm,n\x7d`
repetition is greedy, longest first. -/
def dateRE : RE :=
  .seq (.alt (.seq reDigit reDigit) reDigit)
    (.seq (.cls (fun c => c = '-' || c = '/'))
      (.seq (.alt (.seq reDigit reDigit) reDigit)
        (.seq (.cls (fun c => c = '-' || c = '/'))
          (.alt (.seq reDigit (.seq reDigit (.seq reDigit reDigit)))
            (.alt (.seq reDigit (.seq reDigit reDigit))
              (.seq reDigit reDigit))))))

/-- Amount pattern of line 249 (dollar sign, optional whitespace, capturing group of digits with optional thousands separators and optional cents), as the full match;
the capturing group is recovered by dropping the `\$\s*` prefix, which is
determined because the group starts with a digit. -/
def amountRE : RE :=
  .seq (RE.chr '$') (.seq (.star (.cls Char.isWhitespace))
    (.seq (.alt (.seq reDigit (.seq reDigit reDigit))
        (.alt (.seq reDigit reDigit) reDigit))
      (.seq (.star (.seq (RE.chr ',') (.seq reDigit (.seq reDigit reDigit))))
        (RE.opt (.seq (RE.chr '.') (.seq reDigit reDigit))))))

/-- Group 1 of an `amountRE` match: the match without the `$` and the
following whitespace. -/
def amountGroup (m : String) : String :=
  String.mk ((m.data.drop 1).dropWhile Char.isWhitespace)

/-- Function `extract_key_data` (ocr_app.py lines 229-253): run the four detectors,
keep only non-empty categories, cap emails/phones/dates at 3 and amounts
at 5. The insertion-ordered Python dict is an association list. -/
def extract_key_data (text : String) : List (String × List String) :=
  let emails := findall emailRE text
  let phones := findall phoneRE text
  let dates := findall dateRE text
  let amounts := (findall amountRE text).map amountGroup
  (if emails.isEmpty then [] else [("Emails", emails.take 3)]) ++
  (if phones.isEmpty then [] else [("Phones", phones.take 3)]) ++
  (if dates.isEmpty then [] else [("Dates", dates.take 3)]) ++
  (if amounts.isEmpty then [] else [("Amounts", amounts.take 5)])

lemma take_ne_nil_of_ne_nil {α : Type} (l : List α) (n : Nat) (h : l ≠ [])
    (hn : n ≠ 0) : l.take n ≠ [] := by
  cases l with
  | nil => exact absurd rfl h
  | cons a t =>
      cases n with
      | zero => exact absurd rfl hn
      | succ m => simp

lemma mem_extract_key_data (text : String) (k : String) (l : List String) :
    (k, l) ∈ extract_key_data text ↔
      (¬ (findall emailRE text).isEmpty ∧ k = "Emails" ∧
        l = (findall emailRE text).take 3) ∨
      (¬ (findall phoneRE text).isEmpty ∧ k = "Phones" ∧
        l = (findall phoneRE text).take 3) ∨
      (¬ (findall dateRE text).isEmpty ∧ k = "Dates" ∧
        l = (findall dateRE text).take 3) ∨
      (¬ ((findall amountRE text).map amountGroup).isEmpty ∧ k = "Amounts" ∧
        l = ((findall amountRE text).map amountGroup).take 5) := by
  unfold extract_key_data
  simp only []
  split_ifs with h1 h2 h3 h4 <;> simp_all [Prod.ext_iff]

set_option maxRecDepth 100000 in
/-- C6: `extract_key_data` returns a category exactly when its pattern has
at least one match (so zero-match categories are absent), caps emails,
phones, and dates at the first 3 matches and amounts at the first 5 (matches
listed in scan order), and on "john@example.com and jane@test.org" returns
exactly the two emails in order of appearance. -/
theorem extract_key_data_spec (text : String) :
    (∀ l, ("Emails", l) ∈ extract_key_data text ↔
      ¬ (findall emailRE text).isEmpty ∧ l = (findall emailRE text).take 3) ∧
    (∀ l, ("Phones", l) ∈ extract_key_data text ↔
      ¬ (findall phoneRE text).isEmpty ∧ l = (findall phoneRE text).take 3) ∧
    (∀ l, ("Dates", l) ∈ extract_key_data text ↔
      ¬ (findall dateRE text).isEmpty ∧ l = (findall dateRE text).take 3) ∧
    (∀ l, ("Amounts", l) ∈ extract_key_data text ↔
      ¬ ((findall amountRE text).map amountGroup).isEmpty ∧
        l = ((findall amountRE text).map amountGroup).take 5) ∧
    (∀ k l, (k, l) ∈ extract_key_data text → l ≠ [] ∧ l.length ≤ 5) ∧
    (∀ l, ("Emails", l) ∈ extract_key_data text → l.length ≤ 3) ∧
    (∀ l, ("Phones", l) ∈ extract_key_data text → l.length ≤ 3) ∧
    (∀ l, ("Dates", l) ∈ extract_key_data text → l.length ≤ 3) ∧
    extract_key_data "john@example.com and jane@test.org" =
      [("Emails", ["john@example.com", "jane@test.org"])] := by
  refine ⟨?_, ?_, ?_, ?_, ?_, ?_, ?_, ?_, by decide⟩
  · intro l
    rw [mem_extract_key_data]
    constructor
    · rintro (⟨h, -, rfl⟩ | ⟨-, hk, -⟩ | ⟨-, hk, -⟩ | ⟨-, hk, -⟩)
      · exact ⟨h, rfl⟩
      all_goals exact absurd hk.symm (by decide)
    · rintro ⟨h, rfl⟩
      exact Or.inl ⟨h, rfl, rfl⟩
  · intro l
    rw [mem_extract_key_data]
    constructor
    · rintro (⟨-, hk, -⟩ | ⟨h, -, rfl⟩ | ⟨-, hk, -⟩ | ⟨-, hk, -⟩)
      · exact absurd hk.symm (by decide)
      · exact ⟨h, rfl⟩
      all_goals exact absurd hk.symm (by decide)
    · rintro ⟨h, rfl⟩
      exact Or.inr (Or.inl ⟨h, rfl, rfl⟩)
  · intro l
    rw [mem_extract_key_data]
    constructor
    · rintro (⟨-, hk, -⟩ | ⟨-, hk, -⟩ | ⟨h, -, rfl⟩ | ⟨-, hk, -⟩)
      · exact absurd hk.symm (by decide)
      · exact absurd hk.symm (by decide)
      · exact ⟨h, rfl⟩
      · exact absurd hk.symm (by decide)
    · rintro ⟨h, rfl⟩
      exact Or.inr (Or.inr (Or.inl ⟨h, rfl, rfl⟩))
  · intro l
    rw [mem_extract_key_data]
    constructor
    · rintro (⟨-, hk, -⟩ | ⟨-, hk, -⟩ | ⟨-, hk, -⟩ | ⟨h, -, rfl⟩)
      · exact absurd hk.symm (by decide)
      · exact absurd hk.symm (by decide)
      · exact absurd hk.symm (by decide)
      · exact ⟨h, rfl⟩
    · rintro ⟨h, rfl⟩
      exact Or.inr (Or.inr (Or.inr ⟨h, rfl, rfl⟩))
  · intro k l hm
    rw [mem_extract_key_data] at hm
    rcases hm with ⟨h, -, rfl⟩ | ⟨h, -, rfl⟩ | ⟨h, -, rfl⟩ | ⟨h, -, rfl⟩ <;>
      refine ⟨take_ne_nil_of_ne_nil _ _ (by simpa [List.isEmpty_iff] using h)
        (by omega), le_trans (List.length_take_le _ _) (by omega)⟩
  · intro l hm
    rw [mem_extract_key_data] at hm
    rcases hm with ⟨-, -, rfl⟩ | ⟨-, hk, -⟩ | ⟨-, hk, -⟩ | ⟨-, hk, -⟩
    · exact le_trans (List.length_take_le _ _) (by omega)
    all_goals exact absurd hk.symm (by decide)
  · intro l hm
    rw [mem_extract_key_data] at hm
    rcases hm with ⟨-, hk, -⟩ | ⟨-, -, rfl⟩ | ⟨-, hk, -⟩ | ⟨-, hk, -⟩
    · exact absurd hk.symm (by decide)
    · exact le_trans (List.length_take_le _ _) (by omega)
    all_goals exact absurd hk.symm (by decide)
  · intro l hm
    rw [mem_extract_key_data] at hm
    rcases hm with ⟨-, hk, -⟩ | ⟨-, hk, -⟩ | ⟨-, -, rfl⟩ | ⟨-, hk, -⟩
    · exact absurd hk.symm (by decide)
    · exact absurd hk.symm (by decide)
    · exact le_trans (List.length_take_le _ _) (by omega)
    · exact absurd hk.symm (by decide)

/-! ## JSON export (`export_to_json`, ocr_app.py lines 312-325) and the
round trip through a JSON parser.

The envelope built at line 315 is serialized by `json.dumps(data, indent=2)`
with its default `ensure_ascii=True` escaping; metadata values in the
application are strings, integers and floats (`processing_time` and
`quality_score` are floats), modelled by `MetaVal`. Floats follow this
development's convention of modelling Python floats by exact numbers: a
float value is the exact decimal `m / 10 ^ e`, and its serialized form is
the shortest positional decimal with at least one fraction digit (for
example `70.0`), which is what Python float `repr` — and hence
`json.dumps` — emits at the magnitudes the program exports. The parser
models `json.loads` on the produced grammar (objects, strings with all
JSON escapes including surrogate pairs, integers, and decimal floats). -/

/-- Metadata values stored in the export envelope: strings, integers, and
floats. A float is modelled as the exact decimal number `m / 10 ^ e`
(mantissa and number of fraction digits), mirroring the exact-number
treatment of Python floats used throughout this development. -/
inductive MetaVal where
  | mstr (s : String)
  | mint (n : Int)
  | mflt (m : Int) (e : Nat)
deriving DecidableEq

/-- JSON values produced by the parser; a parsed number with a fraction
part is kept as the exact decimal `m / 10 ^ e`. -/
inductive JVal where
  | jstr (s : String)
  | jint (n : Int)
  | jflt (m : Int) (e : Nat)
  | jobj (fields : List (String × JVal))

/-- Lowercase hex digit for a value below 16. -/
def hexDigitChar : Nat → Char
  | 0 => '0' | 1 => '1' | 2 => '2' | 3 => '3' | 4 => '4'
  | 5 => '5' | 6 => '6' | 7 => '7' | 8 => '8' | 9 => '9'
  | 10 => 'a' | 11 => 'b' | 12 => 'c' | 13 => 'd' | 14 => 'e'
  | _ => 'f'

/-- Four lowercase hex digits, as in Python's `\uXXXX` escapes. -/
def encodeHex4 (n : Nat) : List Char :=
  [hexDigitChar (n / 4096 % 16), hexDigitChar (n / 256 % 16),
   hexDigitChar (n / 16 % 16), hexDigitChar (n % 16)]

/-- Per-character JSON escaping of `json.dumps` with `ensure_ascii=True`:
two-character escapes for quote, backslash and the usual control characters,
printable ASCII kept literal, everything else as `\uXXXX` with surrogate
pairs above U+FFFF. -/
def encodeChar (c : Char) : List Char :=
  if c = '"' then ['\\', '"']
  else if c = '\\' then ['\\', '\\']
  else if c = '\n' then ['\\', 'n']
  else if c = '\r' then ['\\', 'r']
  else if c = '\t' then ['\\', 't']
  else if c.toNat = 8 then ['\\', 'b']
  else if c.toNat = 12 then ['\\', 'f']
  else if 32 ≤ c.toNat ∧ c.toNat ≤ 126 then [c]
  else if c.toNat < 65536 then '\\' :: 'u' :: encodeHex4 c.toNat
  else
    ('\\' :: 'u' :: encodeHex4 (55296 + (c.toNat - 65536) / 1024)) ++
    ('\\' :: 'u' :: encodeHex4 (56320 + (c.toNat - 65536) % 1024))

/-- JSON string literal: quote, escaped characters, quote. -/
def quoteChars (s : String) : List Char :=
  ('"' :: s.data.flatMap encodeChar) ++ ['"']

/-- Decimal digits of `n`, most significant first; `fuel` bounds recursion
(`n + 1` always suffices). -/
def natDigitsF : Nat → Nat → List Char
  | 0, _ => []
  | fuel + 1, n =>
      if n < 10 then [hexDigitChar n]
      else natDigitsF fuel (n / 10) ++ [hexDigitChar (n % 10)]

/-- Decimal representation of a natural number, as Python `repr`. -/
def natRepr (n : Nat) : List Char := natDigitsF (n + 1) n

/-- Decimal representation of an integer, as Python `repr`. -/
def intRepr (n : Int) : List Char :=
  if n < 0 then '-' :: natRepr n.natAbs else natRepr n.toNat

/-- Drop trailing zero fraction digits of the decimal `m / 10 ^ e`, keeping
at least one fraction digit. -/
def stripZeros : Nat → Int → Int × Nat
  | 0, m => (m, 0)
  | 1, m => (m, 1)
  | e + 2, m => if m % 10 = 0 then stripZeros (e + 1) (m / 10) else (m, e + 2)

/-- Canonical decimal form of the float `m / 10 ^ e`: at least one fraction
digit and no trailing zero after the first fraction digit, as in Python
float `repr` (`70.0`, `3.25`, `0.5`). -/
def normFloat (m : Int) (e : Nat) : Int × Nat :=
  if e = 0 then (m * 10, 1) else stripZeros e m

/-- Last `e` decimal digits of `n`, most significant first, with leading
zeros. -/
def fracDigits : Nat → Nat → List Char
  | 0, _ => []
  | e + 1, n => fracDigits e (n / 10) ++ [hexDigitChar (n % 10)]

/-- Positional decimal rendering of the float `m / 10 ^ e` with `1 ≤ e`:
optional minus sign, integer part, point, exactly `e` fraction digits —
Python float `repr` once `(m, e)` is canonical. -/
def floatChars (m : Int) (e : Nat) : List Char :=
  (if m < 0 then ['-'] else []) ++
    (natRepr (m.natAbs / 10 ^ e) ++ '.' :: fracDigits e m.natAbs)

/-- Serialization of one metadata value; a float is rendered in its
canonical decimal form, as Python float `repr` does. -/
def dumpMetaVal : MetaVal → List Char
  | .mstr s => quoteChars s
  | .mint n => intRepr n
  | .mflt m e => floatChars (normFloat m e).1 (normFloat m e).2

/-- Items of the metadata object at `indent=2` nesting depth two: four
spaces of indentation, `"key": value`, separated by `,\n`. -/
def dumpMetaItems : List (String × MetaVal) → List Char
  | [] => []
  | [(k, v)] => [' ', ' ', ' ', ' '] ++ quoteChars k ++ [':', ' '] ++ dumpMetaVal v
  | (k, v) :: rest =>
      ([' ', ' ', ' ', ' '] ++ quoteChars k ++ [':', ' '] ++ dumpMetaVal v)
        ++ [',', '\n'] ++ dumpMetaItems rest

/-- The metadata object: `\x7b\x7d` when empty, otherwise items each on
their own line with the closing brace indented by two spaces. -/
def dumpMetadata (m : List (String × MetaVal)) : List Char :=
  match m with
  | [] => ['\x7b', '\x7d']
  | _ => '\x7b' :: '\n' :: dumpMetaItems m ++ ['\n', ' ', ' ', '\x7d']

/-- Character sequence of the `json.dumps(data, indent=2)` serialization of
the export envelope, in parse-friendly right-nested grouping (the same
character sequence as the flat concatenation). -/
def export_chars (text filename extraction_date : String)
    (metadata : List (String × MetaVal)) : List Char :=
  '\x7b' :: '\n' ::
  (' ' :: ' ' :: (quoteChars "filename" ++ ':' :: ' ' ::
  (quoteChars filename ++ ',' :: '\n' ::
  (' ' :: ' ' :: (quoteChars "extracted_text" ++ ':' :: ' ' ::
  (quoteChars text ++ ',' :: '\n' ::
  (' ' :: ' ' :: (quoteChars "extraction_date" ++ ':' :: ' ' ::
  (quoteChars extraction_date ++ ',' :: '\n' ::
  (' ' :: ' ' :: (quoteChars "metadata" ++ ':' :: ' ' ::
  (dumpMetadata metadata ++ ',' :: '\n' ::
  (' ' :: ' ' :: (quoteChars "version" ++ ':' :: ' ' ::
  (quoteChars "1.0" ++ ['\n', '\x7d'])))))))))))))))

/-- Function `export_to_json` (ocr_app.py lines 312-325): the
`json.dumps(data, indent=2)` serialization of the envelope with keys
`filename`, `extracted_text`, `extraction_date`, `metadata`, `version` in
insertion order; `extraction_date` is the `datetime.now().isoformat()`
string taken at export time. -/
def export_to_json (text filename : String) (extraction_date : String)
    (metadata : List (String × MetaVal)) : String :=
  String.mk (export_chars text filename extraction_date metadata)

/-- Hex digit value of a character, if any. -/
def hexVal? (c : Char) : Option Nat :=
  if c = '0' then some 0 else if c = '1' then some 1
  else if c = '2' then some 2 else if c = '3' then some 3
  else if c = '4' then some 4 else if c = '5' then some 5
  else if c = '6' then some 6 else if c = '7' then some 7
  else if c = '8' then some 8 else if c = '9' then some 9
  else if c = 'a' ∨ c = 'A' then some 10 else if c = 'b' ∨ c = 'B' then some 11
  else if c = 'c' ∨ c = 'C' then some 12 else if c = 'd' ∨ c = 'D' then some 13
  else if c = 'e' ∨ c = 'E' then some 14 else if c = 'f' ∨ c = 'F' then some 15
  else none

/-- Two-character JSON escapes. -/
def escChar? (e : Char) : Option Char :=
  if e = '"' then some '"' else if e = '\\' then some '\\'
  else if e = '/' then some '/' else if e = 'n' then some '\n'
  else if e = 'r' then some '\r' else if e = 't' then some '\t'
  else if e = 'b' then some '\x08' else if e = 'f' then some '\x0c'
  else none

/-- Two-character and `\u` escapes after a backslash: returns the decoded
character and the remaining input. Surrogate pairs are recombined; lone
surrogates are rejected (the encoder, whose inputs are valid scalar values,
never produces them). Not recursive. -/
def decodeEscape : List Char → Option (Char × List Char)
  | [] => none
  | e :: l2 =>
      if e = 'u' then
        match l2 with
        | h1 :: h2 :: h3 :: h4 :: l3 =>
            match hexVal? h1, hexVal? h2, hexVal? h3, hexVal? h4 with
            | some a, some b, some c1, some d =>
                let v := ((a * 16 + b) * 16 + c1) * 16 + d
                if 55296 ≤ v ∧ v ≤ 56319 then
                  match l3 with
                  | b1 :: b2 :: k1 :: k2 :: k3 :: k4 :: l4 =>
                      if b1 = '\\' ∧ b2 = 'u' then
                        match hexVal? k1, hexVal? k2, hexVal? k3, hexVal? k4 with
                        | some a2, some b2v, some c2, some d2 =>
                            let w := ((a2 * 16 + b2v) * 16 + c2) * 16 + d2
                            if 56320 ≤ w ∧ w ≤ 57343 then
                              some (Char.ofNat
                                (65536 + (v - 55296) * 1024 + (w - 56320)), l4)
                            else none
                        | _, _, _, _ => none
                      else none
                  | _ => none
                else if 56320 ≤ v ∧ v ≤ 57343 then none
                else some (Char.ofNat v, l3)
            | _, _, _, _ => none
        | _ => none
      else
        match escChar? e with
        | some ec => some (ec, l2)
        | none => none

/-- Prepend a decoded character to a string-body decode result. -/
def consDecoded (c : Char) :
    Option (List Char × List Char) → Option (List Char × List Char)
  | some (cs, r) => some (c :: cs, r)
  | none => none

/-- Decode the body of a JSON string literal up to the closing quote,
returning the decoded characters and the rest of the input. `fuel` bounds
recursion; one unit per decoded character suffices. -/
def decodeStringBody : Nat → List Char → Option (List Char × List Char)
  | 0, _ => none
  | _ + 1, [] => none
  | fuel + 1, c :: l =>
      if c = '"' then some ([], l)
      else if c = '\\' then
        match decodeEscape l with
        | some (ec, l2) => consDecoded ec (decodeStringBody fuel l2)
        | none => none
      else consDecoded c (decodeStringBody fuel l)

/-- Value of a big-endian digit list. -/
def digitsVal (ds : List Char) : Nat :=
  ds.foldl (fun acc c => acc * 10 + (c.toNat - 48)) 0

/-- Negate a parsed JSON number. -/
def negJNum : JVal → JVal
  | .jint n => .jint (-n)
  | .jflt m e => .jflt (-m) e
  | v => v

/-- Continue a number after its integer digits `ds`: a point followed by a
maximal nonempty digit run makes a float, anything else an integer — as
`json.loads` converts a number token to a float exactly when it has a
fraction part. -/
def fracPart (ds : List Char) : List Char → Option (JVal × List Char)
  | [] => some (.jint ((digitsVal ds : Nat) : Int), [])
  | c :: r2 =>
      if c = '.' then
        let fs := r2.takeWhile Char.isDigit
        if fs.isEmpty then none
        else
          some (.jflt ((digitsVal ds * 10 ^ fs.length + digitsVal fs : Nat) : Int)
            fs.length, r2.dropWhile Char.isDigit)
      else some (.jint ((digitsVal ds : Nat) : Int), c :: r2)

/-- Parse an unsigned JSON number: a maximal digit run, then an optional
fraction. -/
def parseNumBody (body : List Char) : Option (JVal × List Char) :=
  let ds := body.takeWhile Char.isDigit
  if ds.isEmpty then none
  else fracPart ds (body.dropWhile Char.isDigit)

/-- Parse a JSON number (optional minus sign, digits, optional fraction),
yielding a `jint` or a `jflt`. -/
def parseNum (l : List Char) : Option (JVal × List Char) :=
  match l with
  | [] => none
  | c :: rest =>
      if c = '-' then
        match parseNumBody rest with
        | some (v, r) => some (negJNum v, r)
        | none => none
      else parseNumBody (c :: rest)

/-- JSON whitespace. -/
def jsonWs (c : Char) : Bool := c = ' ' || c = '\n' || c = '\t' || c = '\r'

mutual

/-- Parse one JSON value (string, number, or object) after skipping
whitespace. `fuel` bounds the recursion through objects. -/
def parseVal : Nat → List Char → Option (JVal × List Char)
  | 0, _ => none
  | fuel + 1, l0 =>
      match l0.dropWhile jsonWs with
      | [] => none
      | c :: rest =>
          if c = '"' then
            match decodeStringBody (rest.length + 1) rest with
            | some (cs, r) => some (.jstr (String.mk cs), r)
            | none => none
          else if c = '\x7b' then
            match rest.dropWhile jsonWs with
            | [] => none
            | c2 :: rest2 =>
                if c2 = '\x7d' then some (.jobj [], rest2)
                else
                  match parseItems fuel (c2 :: rest2) with
                  | some (items, rest3) => some (.jobj items, rest3)
                  | none => none
          else parseNum (c :: rest)

/-- Parse the nonempty item list of a JSON object, consuming the closing
brace. -/
def parseItems : Nat → List Char → Option (List (String × JVal) × List Char)
  | 0, _ => none
  | fuel + 1, l =>
      match l.dropWhile jsonWs with
      | [] => none
      | c :: rest =>
          if c = '"' then
            match decodeStringBody (rest.length + 1) rest with
            | none => none
            | some (kcs, rest2) =>
                match rest2.dropWhile jsonWs with
                | [] => none
                | c2 :: rest3 =>
                    if c2 = ':' then
                      match parseVal fuel rest3 with
                      | none => none
                      | some (v, rest4) =>
                          match rest4.dropWhile jsonWs with
                          | [] => none
                          | c3 :: rest5 =>
                              if c3 = ',' then
                                match parseItems fuel rest5 with
                                | some (items, rest6) =>
                                    some ((String.mk kcs, v) :: items, rest6)
                                | none => none
                              else if c3 = '\x7d' then
                                some ([(String.mk kcs, v)], rest5)
                              else none
                    else none
          else none

end

/-- Model of `json.loads` on the grammar produced by `export_to_json`:
parse one value and require only whitespace after it. -/
def json_loads (s : String) : Option JVal :=
  match parseVal (s.length + 1) s.data with
  | some (v, rest) => if (rest.dropWhile jsonWs).isEmpty then some v else none
  | none => none

/-- Image of a metadata value in the parsed JSON; a float comes back as
its canonical decimal form, the same number that was written. -/
def jvalOfMeta : MetaVal → JVal
  | .mstr s => .jstr s
  | .mint n => .jint n
  | .mflt m e => .jflt (normFloat m e).1 (normFloat m e).2

lemma hexVal_hexDigitChar : ∀ k, k < 16 → hexVal? (hexDigitChar k) = some k := by
  decide

lemma char_toNat_ranges (c : Char) :
    c.toNat < 1114112 ∧ ¬ (55296 ≤ c.toNat ∧ c.toNat ≤ 57343) := by
  have h := c.valid
  unfold Char.toNat
  rcases h with h | ⟨h1, h2⟩ <;> exact ⟨by omega, by omega⟩

lemma encodeChar_ne_nil (c : Char) : encodeChar c ≠ [] := by
  unfold encodeChar
  split_ifs <;> simp [encodeHex4]

lemma length_le_length_flatMap_encodeChar (cs : List Char) :
    cs.length ≤ (cs.flatMap encodeChar).length := by
  induction cs with
  | nil => simp
  | cons c t ih =>
      have h1 : 1 ≤ (encodeChar c).length := by
        rcases h : encodeChar c with _ | ⟨a, b⟩
        · exact absurd h (encodeChar_ne_nil c)
        · simp
      simp only [List.flatMap_cons, List.length_append, List.length_cons]
      omega

lemma decodeEscape_esc (e ec : Char) (hne : ¬ e = 'u')
    (he : escChar? e = some ec) (l2 : List Char) :
    decodeEscape (e :: l2) = some (ec, l2) := by
  simp only [decodeEscape]
  rw [if_neg hne, he]

lemma decodeEscape_unicode_single (v : Nat) (hb : v < 65536)
    (hs : ¬ (55296 ≤ v ∧ v ≤ 57343)) (l3 : List Char) :
    decodeEscape ('u' :: (encodeHex4 v ++ l3)) = some (Char.ofNat v, l3) := by
  have e1 := hexVal_hexDigitChar (v / 4096 % 16) (by omega)
  have e2 := hexVal_hexDigitChar (v / 256 % 16) (by omega)
  have e3 := hexVal_hexDigitChar (v / 16 % 16) (by omega)
  have e4 := hexVal_hexDigitChar (v % 16) (by omega)
  have hv : ((v / 4096 % 16 * 16 + v / 256 % 16) * 16 + v / 16 % 16) * 16
      + v % 16 = v := by omega
  simp only [encodeHex4, List.cons_append, List.nil_append]
  simp only [decodeEscape]
  rw [if_pos trivial]
  simp only [e1, e2, e3, e4, hv]
  rw [if_neg (by omega), if_neg (by omega)]

lemma decodeEscape_unicode_pair (x : Nat) (hb : x < 1048576) (l4 : List Char) :
    decodeEscape ('u' :: (encodeHex4 (55296 + x / 1024) ++
      ('\\' :: 'u' :: (encodeHex4 (56320 + x % 1024) ++ l4)))) =
      some (Char.ofNat (65536 + x), l4) := by
  set v := 55296 + x / 1024 with hv1
  set w := 56320 + x % 1024 with hw1
  have hbv : v < 65536 := by omega
  have hbw : w < 65536 := by omega
  have e1 := hexVal_hexDigitChar (v / 4096 % 16) (by omega)
  have e2 := hexVal_hexDigitChar (v / 256 % 16) (by omega)
  have e3 := hexVal_hexDigitChar (v / 16 % 16) (by omega)
  have e4 := hexVal_hexDigitChar (v % 16) (by omega)
  have f1 := hexVal_hexDigitChar (w / 4096 % 16) (by omega)
  have f2 := hexVal_hexDigitChar (w / 256 % 16) (by omega)
  have f3 := hexVal_hexDigitChar (w / 16 % 16) (by omega)
  have f4 := hexVal_hexDigitChar (w % 16) (by omega)
  have hv : ((v / 4096 % 16 * 16 + v / 256 % 16) * 16 + v / 16 % 16) * 16
      + v % 16 = v := by omega
  have hw : ((w / 4096 % 16 * 16 + w / 256 % 16) * 16 + w / 16 % 16) * 16
      + w % 16 = w := by omega
  have hchar : 65536 + (v - 55296) * 1024 + (w - 56320) = 65536 + x := by omega
  simp only [encodeHex4, List.cons_append, List.nil_append]
  simp only [decodeEscape]
  rw [if_pos trivial]
  simp only [e1, e2, e3, e4, hv]
  rw [if_pos (by omega : 55296 ≤ v ∧ v ≤ 56319)]
  rw [if_pos (⟨trivial, trivial⟩ : True ∧ True)]
  simp only [f1, f2, f3, f4, hw]
  rw [if_pos (by omega : 56320 ≤ w ∧ w ≤ 57343), hchar]

lemma decodeStringBody_cons_esc (fuel : Nat) (c ec : Char) (l l2 : List Char)
    (h1 : ¬ c = '"') (h2 : c = '\\')
    (hesc : decodeEscape l = some (ec, l2)) :
    decodeStringBody (fuel + 1) (c :: l) =
      consDecoded ec (decodeStringBody fuel l2) := by
  simp only [decodeStringBody]
  rw [if_neg h1, if_pos h2, hesc]

lemma decodeStringBody_cons_lit (fuel : Nat) (c : Char) (l : List Char)
    (h1 : ¬ c = '"') (h2 : ¬ c = '\\') :
    decodeStringBody (fuel + 1) (c :: l) =
      consDecoded c (decodeStringBody fuel l) := by
  simp only [decodeStringBody]
  rw [if_neg h1, if_neg h2]

lemma decodeStringBody_encode (rest : List Char) :
    ∀ (cs : List Char) (fuel : Nat), cs.length < fuel →
      decodeStringBody fuel (cs.flatMap encodeChar ++ '"' :: rest) =
        some (cs, rest) := by
  intro cs
  induction cs with
  | nil =>
      intro fuel hf
      match fuel with
      | f + 1 => simp [decodeStringBody]
  | cons c t ih =>
      intro fuel hf
      match fuel with
      | f + 1 =>
        have hft : t.length < f := by
          simp only [List.length_cons] at hf
          omega
        have ihf := ih f hft
        have hrange := char_toNat_ranges c
        simp only [List.flatMap_cons, List.append_assoc]
        by_cases h1 : c = '"'
        · subst h1
          rw [show encodeChar '"' = ['\\', '"'] from by decide]
          simp only [List.cons_append, List.nil_append]
          rw [decodeStringBody_cons_esc f _ '"' _ _ (by decide) rfl
            (decodeEscape_esc _ _ (by decide) (by decide) _), ihf]
          rfl
        · by_cases h2 : c = '\\'
          · subst h2
            rw [show encodeChar '\\' = ['\\', '\\'] from by decide]
            simp only [List.cons_append, List.nil_append]
            rw [decodeStringBody_cons_esc f _ '\\' _ _ (by decide) rfl
              (decodeEscape_esc _ _ (by decide) (by decide) _), ihf]
            rfl
          · by_cases h3 : c = '\n'
            · subst h3
              rw [show encodeChar '\n' = ['\\', 'n'] from by decide]
              simp only [List.cons_append, List.nil_append]
              rw [decodeStringBody_cons_esc f _ '\n' _ _ (by decide) rfl
                (decodeEscape_esc _ _ (by decide) (by decide) _), ihf]
              rfl
            · by_cases h4 : c = '\r'
              · subst h4
                rw [show encodeChar '\r' = ['\\', 'r'] from by decide]
                simp only [List.cons_append, List.nil_append]
                rw [decodeStringBody_cons_esc f _ '\r' _ _ (by decide) rfl
                  (decodeEscape_esc _ _ (by decide) (by decide) _), ihf]
                rfl
              · by_cases h5 : c = '\t'
                · subst h5
                  rw [show encodeChar '\t' = ['\\', 't'] from by decide]
                  simp only [List.cons_append, List.nil_append]
                  rw [decodeStringBody_cons_esc f _ '\t' _ _ (by decide) rfl
                    (decodeEscape_esc _ _ (by decide) (by decide) _), ihf]
                  rfl
                · by_cases h6 : c.toNat = 8
                  · have hc : c = '\x08' := by
                      rw [← Char.ofNat_toNat c, h6]
                    subst hc
                    rw [show encodeChar '\x08' = ['\\', 'b'] from by decide]
                    simp only [List.cons_append, List.nil_append]
                    rw [decodeStringBody_cons_esc f _ '\x08' _ _ (by decide) rfl
                      (decodeEscape_esc _ _ (by decide) (by decide) _), ihf]
                    rfl
                  · by_cases h7 : c.toNat = 12
                    · have hc : c = '\x0c' := by
                        rw [← Char.ofNat_toNat c, h7]
                      subst hc
                      rw [show encodeChar '\x0c' = ['\\', 'f'] from by decide]
                      simp only [List.cons_append, List.nil_append]
                      rw [decodeStringBody_cons_esc f _ '\x0c' _ _ (by decide)
                        rfl (decodeEscape_esc _ _ (by decide) (by decide) _),
                        ihf]
                      rfl
                    · by_cases h8 : 32 ≤ c.toNat ∧ c.toNat ≤ 126
                      · have he : encodeChar c = [c] := by
                          unfold encodeChar
                          rw [if_neg h1, if_neg h2, if_neg h3, if_neg h4,
                            if_neg h5, if_neg h6, if_neg h7, if_pos h8]
                        rw [he]
                        simp only [List.cons_append, List.nil_append]
                        rw [decodeStringBody_cons_lit f c _ h1 h2, ihf]
                        rfl
                      · by_cases h9 : c.toNat < 65536
                        · have he : encodeChar c =
                              '\\' :: 'u' :: encodeHex4 c.toNat := by
                            unfold encodeChar
                            rw [if_neg h1, if_neg h2, if_neg h3, if_neg h4,
                              if_neg h5, if_neg h6, if_neg h7, if_neg h8,
                              if_pos h9]
                          rw [he]
                          simp only [List.cons_append, List.nil_append]
                          rw [decodeStringBody_cons_esc f _ (Char.ofNat c.toNat)
                            _ _ (by decide) rfl
                            (decodeEscape_unicode_single c.toNat h9
                              (by omega) _), ihf, Char.ofNat_toNat]
                          rfl
                        · have he : encodeChar c =
                              ('\\' :: 'u' ::
                                encodeHex4 (55296 + (c.toNat - 65536) / 1024)) ++
                              ('\\' :: 'u' ::
                                encodeHex4 (56320 + (c.toNat - 65536) % 1024)) := by
                            unfold encodeChar
                            rw [if_neg h1, if_neg h2, if_neg h3, if_neg h4,
                              if_neg h5, if_neg h6, if_neg h7, if_neg h8,
                              if_neg h9]
                          rw [he]
                          have hx : c.toNat - 65536 < 1048576 := by omega
                          have harg : 65536 + (c.toNat - 65536) = c.toNat := by
                            omega
                          simp only [List.cons_append, List.nil_append,
                            List.append_assoc]
                          rw [decodeStringBody_cons_esc f _
                            (Char.ofNat (65536 + (c.toNat - 65536))) _ _
                            (by decide) rfl
                            (decodeEscape_unicode_pair (c.toNat - 65536) hx _),
                            ihf, harg, Char.ofNat_toNat]
                          rfl

lemma hexDigitChar_isDigit : ∀ k, k < 10 → (hexDigitChar k).isDigit = true := by
  decide

lemma hexDigitChar_toNat : ∀ k, k < 10 → (hexDigitChar k).toNat = 48 + k := by
  decide

lemma natDigitsF_digits :
    ∀ fuel n c, c ∈ natDigitsF fuel n → c.isDigit = true := by
  intro fuel
  induction fuel with
  | zero => intro n c hc; simp [natDigitsF] at hc
  | succ f ih =>
      intro n c hc
      unfold natDigitsF at hc
      by_cases h : n < 10
      · rw [if_pos h] at hc
        simp only [List.mem_singleton] at hc
        subst hc
        exact hexDigitChar_isDigit n h
      · rw [if_neg h] at hc
        rcases List.mem_append.1 hc with h1 | h2
        · exact ih _ _ h1
        · simp only [List.mem_singleton] at h2
          subst h2
          exact hexDigitChar_isDigit _ (Nat.mod_lt _ (by omega))

lemma natDigitsF_ne_nil (fuel n : Nat) (h : 0 < fuel) :
    natDigitsF fuel n ≠ [] := by
  match fuel with
  | f + 1 =>
      unfold natDigitsF
      split_ifs <;> simp

lemma digitsVal_append_singleton (xs : List Char) (c : Char) :
    digitsVal (xs ++ [c]) = digitsVal xs * 10 + (c.toNat - 48) := by
  simp [digitsVal, List.foldl_append]

lemma digitsVal_natDigitsF :
    ∀ fuel n, n < 10 ^ fuel → digitsVal (natDigitsF fuel n) = n := by
  intro fuel
  induction fuel with
  | zero =>
      intro n h
      simp only [pow_zero, Nat.lt_one_iff] at h
      subst h
      simp [natDigitsF, digitsVal]
  | succ f ih =>
      intro n h
      unfold natDigitsF
      by_cases hn : n < 10
      · rw [if_pos hn]
        simp [digitsVal, hexDigitChar_toNat n hn]
      · rw [if_neg hn, digitsVal_append_singleton]
        have hdiv : n / 10 < 10 ^ f := by
          rw [Nat.div_lt_iff_lt_mul (by norm_num)]
          calc n < 10 ^ (f + 1) := h
            _ = 10 ^ f * 10 := by ring
        rw [ih (n / 10) hdiv, hexDigitChar_toNat (n % 10) (by omega)]
        omega

lemma lt_ten_pow_succ (n : Nat) : n < 10 ^ (n + 1) :=
  lt_of_lt_of_le (Nat.lt_pow_self (by norm_num) n)
    (Nat.pow_le_pow_right (by norm_num) (Nat.le_succ n))

lemma natRepr_digits (n : Nat) : ∀ c ∈ natRepr n, c.isDigit = true :=
  fun c hc => natDigitsF_digits _ _ c hc

lemma natRepr_ne_nil (n : Nat) : natRepr n ≠ [] :=
  natDigitsF_ne_nil _ _ (Nat.succ_pos n)

lemma digitsVal_natRepr (n : Nat) : digitsVal (natRepr n) = n :=
  digitsVal_natDigitsF _ _ (lt_ten_pow_succ n)

lemma fracDigits_length (e : Nat) : ∀ a, (fracDigits e a).length = e := by
  induction e with
  | zero => intro a; rfl
  | succ f ih => intro a; simp [fracDigits, ih]

lemma fracDigits_digits (e : Nat) :
    ∀ a, ∀ c ∈ fracDigits e a, c.isDigit = true := by
  induction e with
  | zero => intro a c hc; simp [fracDigits] at hc
  | succ f ih =>
      intro a c hc
      simp only [fracDigits, List.mem_append, List.mem_singleton] at hc
      rcases hc with h1 | h2
      · exact ih _ c h1
      · subst h2
        exact hexDigitChar_isDigit _ (Nat.mod_lt _ (by omega))

lemma digitsVal_fracDigits (e : Nat) :
    ∀ a, digitsVal (fracDigits e a) = a % 10 ^ e := by
  induction e with
  | zero => intro a; simp [fracDigits, digitsVal, Nat.mod_one]
  | succ f ih =>
      intro a
      simp only [fracDigits]
      rw [digitsVal_append_singleton, ih,
        hexDigitChar_toNat _ (Nat.mod_lt _ (by omega))]
      have hp : 10 ^ (f + 1) = 10 * 10 ^ f := by ring
      rw [hp, Nat.mod_mul]
      have h48 : 48 + a % 10 - 48 = a % 10 := by omega
      rw [h48]
      ring

lemma stripZeros_spec (e : Nat) : ∀ m : Int, 1 ≤ e →
    1 ≤ (stripZeros e m).2 ∧
    ((stripZeros e m).1 : ℚ) / 10 ^ (stripZeros e m).2 = (m : ℚ) / 10 ^ e := by
  induction e using Nat.strong_induction_on with
  | _ e ih =>
      intro m he
      rcases e with _ | e1
      · exact absurd he (by omega)
      rcases e1 with _ | n
      · refine ⟨le_refl 1, ?_⟩
        simp [stripZeros]
      · simp only [stripZeros]
        split_ifs with hdiv
        · obtain ⟨h1, h2⟩ := ih (n + 1) (by omega) (m / 10) (by omega)
          refine ⟨h1, ?_⟩
          rw [h2]
          have hd : (10 : ℤ) ∣ m := Int.dvd_of_emod_eq_zero hdiv
          have hq : ((m / 10 : ℤ) : ℚ) = (m : ℚ) / 10 := by
            obtain ⟨k, hk⟩ := hd
            subst hk
            rw [Int.mul_ediv_cancel_left k (by norm_num : (10 : ℤ) ≠ 0)]
            push_cast
            ring
          rw [hq, div_div, pow_succ]
          ring_nf
        · refine ⟨by show 1 ≤ n + 2; omega, rfl⟩

lemma normFloat_snd_pos (m : Int) (e : Nat) : 1 ≤ (normFloat m e).2 := by
  unfold normFloat
  split_ifs with h
  · exact le_refl 1
  · exact (stripZeros_spec e m (by omega)).1

lemma normFloat_val (m : Int) (e : Nat) :
    ((normFloat m e).1 : ℚ) / 10 ^ (normFloat m e).2 = (m : ℚ) / 10 ^ e := by
  unfold normFloat
  split_ifs with h
  · subst h
    show ((m * 10 : ℤ) : ℚ) / 10 ^ 1 = (m : ℚ) / 10 ^ 0
    push_cast
    rw [pow_one, pow_zero, div_one]
    exact mul_div_cancel_right₀ _ (by norm_num)
  · exact (stripZeros_spec e m (by omega)).2

lemma isDigit_facts (c : Char) (h : c.isDigit = true) :
    c ≠ '-' ∧ c ≠ '"' ∧ c ≠ '\x7b' ∧ jsonWs c = false := by
  refine ⟨?_, ?_, ?_, ?_⟩
  · intro he; subst he; simp [Char.isDigit] at h
  · intro he; subst he; simp [Char.isDigit] at h
  · intro he; subst he; simp [Char.isDigit] at h
  · by_cases h1 : c = ' '
    · subst h1; simp [Char.isDigit] at h
    · by_cases h2 : c = '\n'
      · subst h2; simp [Char.isDigit] at h
      · by_cases h3 : c = '\t'
        · subst h3; simp [Char.isDigit] at h
        · by_cases h4 : c = '\r'
          · subst h4; simp [Char.isDigit] at h
          · simp [jsonWs, h1, h2, h3, h4]

/-- Head of the list, if any, fails `p`. -/
def headNot (p : Char → Bool) : List Char → Prop
  | [] => True
  | c :: _ => p c = false

lemma takeWhile_append_of_forall (p : Char → Bool) (xs ys : List Char)
    (h : ∀ x ∈ xs, p x = true) :
    (xs ++ ys).takeWhile p = xs ++ ys.takeWhile p := by
  induction xs with
  | nil => simp
  | cons a t ih =>
      simp only [List.cons_append, List.takeWhile_cons,
        h a (List.mem_cons_self a t), if_true]
      rw [ih (fun x hx => h x (List.mem_cons_of_mem a hx))]

lemma dropWhile_append_of_forall (p : Char → Bool) (xs ys : List Char)
    (h : ∀ x ∈ xs, p x = true) :
    (xs ++ ys).dropWhile p = ys.dropWhile p := by
  induction xs with
  | nil => simp
  | cons a t ih =>
      simp only [List.cons_append, List.dropWhile_cons,
        h a (List.mem_cons_self a t), if_true]
      exact ih (fun x hx => h x (List.mem_cons_of_mem a hx))

lemma takeWhile_eq_nil_of_headNot (p : Char → Bool) (ys : List Char)
    (h : headNot p ys) : ys.takeWhile p = [] := by
  cases ys with
  | nil => rfl
  | cons c t =>
      simp only [headNot] at h
      simp [List.takeWhile_cons, h]

lemma dropWhile_eq_self_of_headNot (p : Char → Bool) (ys : List Char)
    (h : headNot p ys) : ys.dropWhile p = ys := by
  cases ys with
  | nil => rfl
  | cons c t =>
      simp only [headNot] at h
      simp [List.dropWhile_cons, h]

/-- Characters that keep a number token going: digits and the decimal
point. -/
def numCont (c : Char) : Bool := c.isDigit || c = '.'

lemma headNot_isDigit_of_numCont (l : List Char) (h : headNot numCont l) :
    headNot Char.isDigit l := by
  cases l with
  | nil => trivial
  | cons c t =>
      simp only [headNot, numCont] at h ⊢
      cases hd : c.isDigit
      · rfl
      · rw [hd] at h
        simp at h

lemma parseNumBody_int (k : Nat) (rest : List Char)
    (h : headNot numCont rest) :
    parseNumBody (natRepr k ++ rest) = some (.jint (k : Int), rest) := by
  have hdig := natRepr_digits k
  have hrD := headNot_isDigit_of_numCont rest h
  simp only [parseNumBody]
  rw [takeWhile_append_of_forall _ _ _ hdig,
    takeWhile_eq_nil_of_headNot _ _ hrD, List.append_nil,
    dropWhile_append_of_forall _ _ _ hdig,
    dropWhile_eq_self_of_headNot _ _ hrD]
  rw [if_neg (by simp [List.isEmpty_iff, natRepr_ne_nil])]
  cases rest with
  | nil => simp [fracPart, digitsVal_natRepr]
  | cons c t =>
      have hc : ¬ c = '.' := by
        simp only [headNot, numCont] at h
        intro he
        subst he
        simp at h
      simp only [fracPart]
      rw [if_neg hc, digitsVal_natRepr]

lemma parseNumBody_frac (ip e a : Nat) (he : 1 ≤ e) (rest : List Char)
    (h : headNot numCont rest) :
    parseNumBody (natRepr ip ++ '.' :: (fracDigits e a ++ rest)) =
      some (.jflt ((ip * 10 ^ e + a % 10 ^ e : Nat) : Int) e, rest) := by
  have hdig := natRepr_digits ip
  have hdot : headNot Char.isDigit ('.' :: (fracDigits e a ++ rest)) := by
    show ('.' : Char).isDigit = false
    decide
  have hrD := headNot_isDigit_of_numCont rest h
  simp only [parseNumBody]
  rw [takeWhile_append_of_forall _ _ _ hdig,
    takeWhile_eq_nil_of_headNot _ _ hdot, List.append_nil,
    dropWhile_append_of_forall _ _ _ hdig,
    dropWhile_eq_self_of_headNot _ _ hdot]
  rw [if_neg (by simp [List.isEmpty_iff, natRepr_ne_nil])]
  simp only [fracPart]
  rw [if_pos trivial]
  rw [takeWhile_append_of_forall _ _ _ (fracDigits_digits e a),
    takeWhile_eq_nil_of_headNot _ _ hrD, List.append_nil,
    dropWhile_append_of_forall _ _ _ (fracDigits_digits e a),
    dropWhile_eq_self_of_headNot _ _ hrD]
  rw [if_neg (by
    simp only [List.isEmpty_iff]
    intro hnil
    have hl := fracDigits_length e a
    rw [hnil] at hl
    simp at hl
    omega)]
  rw [digitsVal_natRepr, fracDigits_length, digitsVal_fracDigits]

lemma parseNum_intRepr (n : Int) (rest : List Char)
    (h : headNot numCont rest) :
    parseNum (intRepr n ++ rest) = some (.jint n, rest) := by
  unfold intRepr
  by_cases hn : n < 0
  · rw [if_pos hn]
    simp only [List.cons_append, parseNum]
    rw [if_pos trivial]
    rw [parseNumBody_int n.natAbs rest h]
    have harg : -((n.natAbs : Nat) : Int) = n := by omega
    show some (JVal.jint (-((n.natAbs : Nat) : Int)), rest) =
      some (JVal.jint n, rest)
    rw [harg]
  · rw [if_neg hn]
    obtain ⟨c, t, hct⟩ : ∃ c t, natRepr n.toNat = c :: t := by
      cases h1 : natRepr n.toNat with
      | nil => exact absurd h1 (natRepr_ne_nil _)
      | cons a b => exact ⟨a, b, rfl⟩
    have hcd : c.isDigit = true :=
      natRepr_digits _ c (by rw [hct]; exact List.mem_cons_self c t)
    have hfacts := isDigit_facts c hcd
    have hmain := parseNumBody_int n.toNat rest h
    rw [hct] at hmain ⊢
    simp only [List.cons_append] at hmain
    simp only [List.cons_append, parseNum]
    rw [if_neg hfacts.1, hmain]
    have harg : ((n.toNat : Nat) : Int) = n := by omega
    rw [harg]

lemma parseNum_floatChars (m : Int) (e : Nat) (he : 1 ≤ e) (rest : List Char)
    (h : headNot numCont rest) :
    parseNum (floatChars m e ++ rest) = some (.jflt m e, rest) := by
  have hfrac := parseNumBody_frac (m.natAbs / 10 ^ e) e m.natAbs he rest h
  have hsum : m.natAbs / 10 ^ e * 10 ^ e + m.natAbs % 10 ^ e = m.natAbs :=
    Nat.div_add_mod' _ _
  rw [hsum] at hfrac
  unfold floatChars
  by_cases hn : m < 0
  · rw [if_pos hn]
    simp only [List.singleton_append, List.cons_append, List.append_assoc,
      List.nil_append, parseNum]
    rw [if_pos trivial]
    rw [hfrac]
    have harg : -((m.natAbs : Nat) : Int) = m := by omega
    show some (JVal.jflt (-((m.natAbs : Nat) : Int)) e, rest) =
      some (JVal.jflt m e, rest)
    rw [harg]
  · rw [if_neg hn]
    simp only [List.nil_append]
    obtain ⟨c, t, hct⟩ : ∃ c t, natRepr (m.natAbs / 10 ^ e) = c :: t := by
      cases h1 : natRepr (m.natAbs / 10 ^ e) with
      | nil => exact absurd h1 (natRepr_ne_nil _)
      | cons a b => exact ⟨a, b, rfl⟩
    have hcd : c.isDigit = true :=
      natRepr_digits _ c (by rw [hct]; exact List.mem_cons_self c t)
    have hfacts := isDigit_facts c hcd
    rw [hct] at hfrac ⊢
    simp only [List.cons_append, List.append_assoc] at hfrac
    simp only [List.cons_append, List.append_assoc, parseNum]
    rw [if_neg hfacts.1, hfrac]
    have harg : ((m.natAbs : Nat) : Int) = m := by omega
    rw [harg]

lemma strMk_data (s : String) : String.mk s.data = s := rfl

lemma quoteChars_append (s : String) (r : List Char) :
    quoteChars s ++ r = '"' :: (s.data.flatMap encodeChar ++ '"' :: r) := by
  simp [quoteChars]

lemma decodeStringBody_quote_tail (s : String) (r : List Char) :
    decodeStringBody ((s.data.flatMap encodeChar ++ '"' :: r).length + 1)
      (s.data.flatMap encodeChar ++ '"' :: r) = some (s.data, r) := by
  apply decodeStringBody_encode
  have := length_le_length_flatMap_encodeChar s.data
  simp only [List.length_append, List.length_cons]
  omega

lemma parseVal_strVal (s : String) (tail : List Char) (fuel : Nat) :
    parseVal (fuel + 1) (' ' :: (quoteChars s ++ tail)) =
      some (.jstr s, tail) := by
  have h := length_le_length_flatMap_encodeChar s.data
  have h2 : (s.data.flatMap encodeChar).length
      = (List.map (List.length ∘ encodeChar) s.data).sum := by
    simp
  simp [parseVal, quoteChars_append, List.dropWhile_cons,
    show jsonWs ' ' = true from by decide,
    show jsonWs '"' = false from by decide]
  rw [decodeStringBody_encode tail s.data _ (by omega)]

lemma parseVal_intVal (n : Int) (tail : List Char) (fuel : Nat)
    (h : headNot numCont tail) :
    parseVal (fuel + 1) (' ' :: (intRepr n ++ tail)) =
      some (.jint n, tail) := by
  have hmain := parseNum_intRepr n tail h
  by_cases hn : n < 0
  · have hrepr : intRepr n = '-' :: natRepr n.natAbs := by
      unfold intRepr
      rw [if_pos hn]
    rw [hrepr] at hmain ⊢
    simp only [List.cons_append, parseVal, List.dropWhile_cons,
      show jsonWs ' ' = true from by decide,
      show jsonWs '-' = false from by decide, if_true, if_false]
    simp only [List.cons_append] at hmain
    simp [show ¬ ('-' : Char) = '"' from by decide,
      show ¬ ('-' : Char) = '\x7b' from by decide, hmain]
  · obtain ⟨c, t, hct⟩ : ∃ c t, intRepr n = c :: t := by
      unfold intRepr
      rw [if_neg hn]
      cases h1 : natRepr n.toNat with
      | nil => exact absurd h1 (natRepr_ne_nil _)
      | cons a b => exact ⟨a, b, rfl⟩
    have hcd : c.isDigit = true := by
      have : c ∈ intRepr n := by
        rw [hct]
        exact List.mem_cons_self c t
      unfold intRepr at this
      rw [if_neg hn] at this
      exact natRepr_digits _ c this
    have hfacts := isDigit_facts c hcd
    rw [hct] at hmain ⊢
    simp only [List.cons_append, parseVal, List.dropWhile_cons,
      show jsonWs ' ' = true from by decide, hfacts.2.2.2, if_true, if_false]
    simp only [List.cons_append] at hmain
    simp [hfacts.1, hfacts.2.1, hfacts.2.2.1, hmain]

lemma parseVal_fltVal (m : Int) (e : Nat) (he : 1 ≤ e) (tail : List Char)
    (fuel : Nat) (h : headNot numCont tail) :
    parseVal (fuel + 1) (' ' :: (floatChars m e ++ tail)) =
      some (.jflt m e, tail) := by
  have hmain := parseNum_floatChars m e he tail h
  by_cases hn : m < 0
  · have hrepr : floatChars m e =
        '-' :: (natRepr (m.natAbs / 10 ^ e) ++ '.' :: fracDigits e m.natAbs) := by
      unfold floatChars
      rw [if_pos hn]
      rfl
    rw [hrepr] at hmain ⊢
    simp only [List.cons_append, List.append_assoc, parseVal,
      List.dropWhile_cons,
      show jsonWs ' ' = true from by decide,
      show jsonWs '-' = false from by decide, if_true, if_false]
    simp only [List.cons_append, List.append_assoc] at hmain
    simp [show ¬ ('-' : Char) = '"' from by decide,
      show ¬ ('-' : Char) = '\x7b' from by decide, hmain]
  · have hrepr : floatChars m e =
        natRepr (m.natAbs / 10 ^ e) ++ '.' :: fracDigits e m.natAbs := by
      unfold floatChars
      rw [if_neg hn]
      rfl
    obtain ⟨c, t, hct⟩ : ∃ c t, natRepr (m.natAbs / 10 ^ e) = c :: t := by
      cases h1 : natRepr (m.natAbs / 10 ^ e) with
      | nil => exact absurd h1 (natRepr_ne_nil _)
      | cons a b => exact ⟨a, b, rfl⟩
    have hcd : c.isDigit = true :=
      natRepr_digits _ c (by rw [hct]; exact List.mem_cons_self c t)
    have hfacts := isDigit_facts c hcd
    rw [hrepr, hct] at hmain ⊢
    simp only [List.cons_append, List.append_assoc, parseVal,
      List.dropWhile_cons,
      show jsonWs ' ' = true from by decide, hfacts.2.2.2, if_true, if_false]
    simp only [List.cons_append, List.append_assoc] at hmain
    simp [hfacts.1, hfacts.2.1, hfacts.2.2.1, hmain]

lemma parseItems_step (fuel : Nat) (l : List Char) (k : String) (v : JVal)
    (val X : List Char)
    (hl : l.dropWhile jsonWs =
      '"' :: (k.data.flatMap encodeChar ++ '"' :: ':' :: val))
    (hval : parseVal fuel val = some (v, X)) :
    parseItems (fuel + 1) l =
      (match X.dropWhile jsonWs with
      | [] => none
      | c3 :: rest5 =>
          if c3 = ',' then
            match parseItems fuel rest5 with
            | some (items, rest6) => some ((k, v) :: items, rest6)
            | none => none
          else if c3 = '\x7d' then some ([(k, v)], rest5)
          else none) := by
  have h1 := length_le_length_flatMap_encodeChar k.data
  have h2 : (k.data.flatMap encodeChar).length
      = (List.map (List.length ∘ encodeChar) k.data).sum := by
    simp
  simp only [parseItems, hl]
  rw [if_pos trivial]
  rw [decodeStringBody_encode (':' :: val) k.data _ (by
    simp only [List.length_append, List.length_cons]
    omega)]
  simp only [List.dropWhile_cons, show jsonWs ':' = false from by decide,
    Bool.false_eq_true, if_false, if_pos rfl, hval, strMk_data]
  rw [if_pos trivial]

/-- Separator-prefixed rendering of the remaining metadata items. -/
def itemSep : List (String × MetaVal) → List Char
  | [] => []
  | x :: xs => ',' :: '\n' :: dumpMetaItems (x :: xs)

lemma dumpMetaItems_cons (k : String) (v : MetaVal)
    (t : List (String × MetaVal)) :
    dumpMetaItems ((k, v) :: t) =
      (([' ', ' ', ' ', ' '] ++ quoteChars k ++ [':', ' '] ++ dumpMetaVal v)
        ++ itemSep t) := by
  cases t with
  | nil => simp [dumpMetaItems, itemSep]
  | cons a b => simp [dumpMetaItems, itemSep]

lemma parseVal_metaVal (v : MetaVal) (tail : List Char) (fuel : Nat)
    (h : headNot numCont tail) :
    parseVal (fuel + 1) (' ' :: (dumpMetaVal v ++ tail)) =
      some (jvalOfMeta v, tail) := by
  cases v with
  | mstr s => exact parseVal_strVal s tail fuel
  | mint n => exact parseVal_intVal n tail fuel h
  | mflt m e =>
      exact parseVal_fltVal (normFloat m e).1 (normFloat m e).2
        (normFloat_snd_pos m e) tail fuel h

lemma dropWhile_dumpMetaItems (k : String) (v : MetaVal)
    (t : List (String × MetaVal)) (C : List Char) :
    (dumpMetaItems ((k, v) :: t) ++ C).dropWhile jsonWs =
      '"' :: (k.data.flatMap encodeChar ++ '"' :: ':' ::
        (' ' :: (dumpMetaVal v ++ (itemSep t ++ C)))) := by
  rw [dumpMetaItems_cons]
  simp [quoteChars, List.dropWhile_cons,
    show jsonWs ' ' = true from by decide,
    show jsonWs '"' = false from by decide]

lemma headNot_numCont_itemSep (t : List (String × MetaVal)) (rest : List Char) :
    headNot numCont
      (itemSep t ++ ('\n' :: ' ' :: ' ' :: '\x7d' :: rest)) := by
  cases t with
  | nil =>
      show numCont '\n' = false
      decide
  | cons a b =>
      show numCont ',' = false
      decide

lemma parseItems_dump :
    ∀ (m : List (String × MetaVal)), m ≠ [] →
    ∀ (rest l : List Char) (fuel : Nat), m.length + 1 < fuel →
      l.dropWhile jsonWs =
        (dumpMetaItems m ++
          ('\n' :: ' ' :: ' ' :: '\x7d' :: rest)).dropWhile jsonWs →
      parseItems fuel l =
        some (m.map (fun kv => (kv.1, jvalOfMeta kv.2)), rest) := by
  intro m
  induction m with
  | nil => intro hm; exact absurd rfl hm
  | cons kv t ih =>
      intro _ rest l fuel hf hl
      obtain ⟨k, v⟩ := kv
      obtain ⟨f, rfl⟩ : ∃ f, fuel = f + 1 := ⟨fuel - 1, by omega⟩
      obtain ⟨f1, rfl⟩ : ∃ f1, f = f1 + 1 := by
        refine ⟨f - 1, ?_⟩
        simp only [List.length_cons] at hf
        omega
      rw [dropWhile_dumpMetaItems] at hl
      rw [parseItems_step (f1 + 1) l k (jvalOfMeta v)
        (' ' :: (dumpMetaVal v ++
          (itemSep t ++ ('\n' :: ' ' :: ' ' :: '\x7d' :: rest))))
        (itemSep t ++ ('\n' :: ' ' :: ' ' :: '\x7d' :: rest)) hl
        (parseVal_metaVal v _ f1 (headNot_numCont_itemSep t rest))]
      cases t with
      | nil =>
          simp [itemSep, List.dropWhile_cons,
            show jsonWs '\n' = true from by decide,
            show jsonWs ' ' = true from by decide,
            show jsonWs '\x7d' = false from by decide]
      | cons a b =>
          simp only [itemSep, List.cons_append, List.dropWhile_cons,
            show jsonWs ',' = false from by decide, Bool.false_eq_true,
            if_false]
          rw [if_pos trivial]
          rw [ih (by simp) rest
            ('\n' :: (dumpMetaItems (a :: b) ++
              ('\n' :: ' ' :: ' ' :: '\x7d' :: rest))) (f1 + 1)
            (by simp only [List.length_cons] at hf ⊢; omega)
            (by
              rw [List.dropWhile_cons,
                if_pos (by decide : jsonWs '\n' = true)])]
          simp

lemma parseVal_objVal (m : List (String × MetaVal)) (tail : List Char)
    (fuel : Nat) (hf : m.length + 1 < fuel) :
    parseVal (fuel + 1) (' ' :: (dumpMetadata m ++ tail)) =
      some (.jobj (m.map (fun kv => (kv.1, jvalOfMeta kv.2))), tail) := by
  cases m with
  | nil =>
      simp [dumpMetadata, parseVal, List.dropWhile_cons,
        show jsonWs ' ' = true from by decide,
        show jsonWs '\x7b' = false from by decide,
        show jsonWs '\x7d' = false from by decide,
        show ¬ ('\x7b' : Char) = '"' from by decide]
  | cons kv t =>
      obtain ⟨k, v⟩ := kv
      have hnorm : dumpMetadata ((k, v) :: t) ++ tail =
          '\x7b' :: '\n' :: (dumpMetaItems ((k, v) :: t) ++
            ('\n' :: ' ' :: ' ' :: '\x7d' :: tail)) := by
        simp [dumpMetadata]
      have hdrop := dropWhile_dumpMetaItems k v t
        ('\n' :: ' ' :: ' ' :: '\x7d' :: tail)
      simp only [hnorm, parseVal, List.dropWhile_cons,
        show jsonWs ' ' = true from by decide,
        show jsonWs '\x7b' = false from by decide, Bool.false_eq_true,
        if_false, show jsonWs '\n' = true from by decide, if_true]
      rw [hdrop]
      have hpi := parseItems_dump ((k, v) :: t) (by simp) tail
        ('"' :: (k.data.flatMap encodeChar ++ '"' :: ':' :: ' ' ::
          (dumpMetaVal v ++ (itemSep t ++ '\n' :: ' ' :: ' ' :: '\x7d' :: tail))))
        fuel hf
        (by rw [List.dropWhile_cons, if_neg (by decide : ¬ jsonWs '"' = true),
          hdrop])
      simp [hpi, show ¬ ('"' : Char) = '\x7d' from by decide]

lemma dumpMetaItems_length_ge :
    ∀ m : List (String × MetaVal), m.length ≤ (dumpMetaItems m).length := by
  intro m
  induction m with
  | nil => simp [dumpMetaItems]
  | cons kv t ih =>
      obtain ⟨k, v⟩ := kv
      rw [dumpMetaItems_cons]
      cases t with
      | nil =>
          simp [itemSep, List.length_append]
      | cons a b =>
          have h2 : (itemSep (a :: b)).length
              = 2 + (dumpMetaItems (a :: b)).length := by
            simp [itemSep]
            omega
          simp only [List.length_append, List.length_cons, h2]
          simp only [List.length_cons] at ih ⊢
          omega

lemma dumpMetadata_length_ge (m : List (String × MetaVal)) :
    m.length ≤ (dumpMetadata m).length := by
  cases m with
  | nil => simp [dumpMetadata]
  | cons a b =>
      have := dumpMetaItems_length_ge (a :: b)
      simp only [dumpMetadata, List.length_cons, List.length_append]
      simp only [List.length_cons] at this ⊢
      omega

lemma export_chars_length_ge (text filename extraction_date : String)
    (m : List (String × MetaVal)) :
    m.length + 8 ≤ (export_chars text filename extraction_date m).length := by
  have h := dumpMetadata_length_ge m
  simp only [export_chars, List.length_append, List.length_cons]
  omega

/-- C9: parsing the JSON produced by `export_to_json` recovers the envelope
exactly: the original text under `extracted_text`, the original filename,
the extraction date, and every metadata field as written — strings and
integers verbatim, and a float field as the canonical decimal form of the
number that was written, which by the second conjunct denotes exactly the
value written (normalization preserves the number `m / 10 ^ e`). The third
conjunct checks the serialized envelope byte for byte on a float field,
with the float rendered `70.0` exactly as Python writes it. -/
theorem export_to_json_round_trip (text filename extraction_date : String)
    (metadata : List (String × MetaVal)) :
    (json_loads (export_to_json text filename extraction_date metadata) =
      some (.jobj
        [("filename", .jstr filename),
         ("extracted_text", .jstr text),
         ("extraction_date", .jstr extraction_date),
         ("metadata", .jobj (metadata.map (fun kv => (kv.1, jvalOfMeta kv.2)))),
         ("version", .jstr "1.0")])) ∧
    (∀ (m : Int) (e : Nat),
      ((normFloat m e).1 : ℚ) / 10 ^ (normFloat m e).2 = (m : ℚ) / 10 ^ e) ∧
    export_to_json "" "f" "d" [("quality_score", .mflt 70 0)] =
      "\x7b\n  \"filename\": \"f\",\n  \"extracted_text\": \"\",\n  \"extraction_date\": \"d\",\n  \"metadata\": \x7b\n    \"quality_score\": 70.0\n  \x7d,\n  \"version\": \"1.0\"\n\x7d" := by
  refine ⟨?_, fun m e => normFloat_val m e, by rfl⟩
  have hL := export_chars_length_ge text filename extraction_date metadata
  set E := export_chars text filename extraction_date metadata with hE
  set mm := metadata.map (fun kv => (kv.1, jvalOfMeta kv.2)) with hmm
  set n1 := E.length - 1 with hn1
  set n2 := E.length - 2 with hn2
  set n3 := E.length - 3 with hn3
  set n4 := E.length - 4 with hn4
  set n5 := E.length - 5 with hn5
  set n6 := E.length - 6 with hn6
  have hlen : E.length = n1 + 1 := by omega
  have e1 : n1 = n2 + 1 := by omega
  have e2 : n2 = n3 + 1 := by omega
  have e3 : n3 = n4 + 1 := by omega
  have e4 : n4 = n5 + 1 := by omega
  have e5 : n5 = n6 + 1 := by omega
  have hf5 : metadata.length + 1 < n5 := by omega
  set l5 : List Char := '\n' :: ' ' :: ' ' ::
    (quoteChars "version" ++ ':' :: ' ' ::
      (quoteChars "1.0" ++ ['\n', '\x7d'])) with hl5def
  set l4 : List Char := '\n' :: ' ' :: ' ' ::
    (quoteChars "metadata" ++ ':' :: ' ' ::
      (dumpMetadata metadata ++ ',' :: l5)) with hl4def
  set l3 : List Char := '\n' :: ' ' :: ' ' ::
    (quoteChars "extraction_date" ++ ':' :: ' ' ::
      (quoteChars extraction_date ++ ',' :: l4)) with hl3def
  set l2 : List Char := '\n' :: ' ' :: ' ' ::
    (quoteChars "extracted_text" ++ ':' :: ' ' ::
      (quoteChars text ++ ',' :: l3)) with hl2def
  set S1 : List Char := "filename".data.flatMap encodeChar ++ '"' :: ':' ::
    (' ' :: (quoteChars filename ++ ',' :: l2)) with hS1def
  have hEeq : E = '\x7b' :: '\n' :: ' ' :: ' ' ::
      (quoteChars "filename" ++ ':' :: ' ' ::
        (quoteChars filename ++ ',' :: l2)) := by
    rw [hE, hl2def, hl3def, hl4def, hl5def]
    rfl
  have h5 : parseItems n4 l5 = some ([("version", .jstr "1.0")], []) := by
    rw [e4, parseItems_step n5 l5 "version" (.jstr "1.0")
      (' ' :: (quoteChars "1.0" ++ ['\n', '\x7d'])) ['\n', '\x7d']
      (by
        rw [hl5def]
        simp [quoteChars_append, List.dropWhile_cons,
          show jsonWs '\n' = true from by decide,
          show jsonWs ' ' = true from by decide,
          show jsonWs '"' = false from by decide])
      (by
        rw [e5]
        exact parseVal_strVal "1.0" ['\n', '\x7d'] n6)]
    simp [List.dropWhile_cons, show jsonWs '\n' = true from by decide,
      show jsonWs '\x7d' = false from by decide,
      show ¬ ('\x7d' : Char) = ',' from by decide]
  have h4 : parseItems n3 l4 =
      some ([("metadata", .jobj mm), ("version", .jstr "1.0")], []) := by
    rw [e3, parseItems_step n4 l4 "metadata" (.jobj mm)
      (' ' :: (dumpMetadata metadata ++ ',' :: l5)) (',' :: l5)
      (by
        rw [hl4def]
        simp [quoteChars_append, List.dropWhile_cons,
          show jsonWs '\n' = true from by decide,
          show jsonWs ' ' = true from by decide,
          show jsonWs '"' = false from by decide])
      (by
        rw [e4, hmm]
        exact parseVal_objVal metadata (',' :: l5) n5 hf5)]
    simp [List.dropWhile_cons, show jsonWs ',' = false from by decide, h5]
  have h3 : parseItems n2 l3 =
      some ([("extraction_date", .jstr extraction_date),
        ("metadata", .jobj mm), ("version", .jstr "1.0")], []) := by
    rw [e2, parseItems_step n3 l3 "extraction_date" (.jstr extraction_date)
      (' ' :: (quoteChars extraction_date ++ ',' :: l4)) (',' :: l4)
      (by
        rw [hl3def]
        simp [quoteChars_append, List.dropWhile_cons,
          show jsonWs '\n' = true from by decide,
          show jsonWs ' ' = true from by decide,
          show jsonWs '"' = false from by decide])
      (by
        rw [e3]
        exact parseVal_strVal extraction_date (',' :: l4) n4)]
    simp [List.dropWhile_cons, show jsonWs ',' = false from by decide, h4]
  have h2 : parseItems n1 l2 =
      some ([("extracted_text", .jstr text),
        ("extraction_date", .jstr extraction_date),
        ("metadata", .jobj mm), ("version", .jstr "1.0")], []) := by
    rw [e1, parseItems_step n2 l2 "extracted_text" (.jstr text)
      (' ' :: (quoteChars text ++ ',' :: l3)) (',' :: l3)
      (by
        rw [hl2def]
        simp [quoteChars_append, List.dropWhile_cons,
          show jsonWs '\n' = true from by decide,
          show jsonWs ' ' = true from by decide,
          show jsonWs '"' = false from by decide])
      (by
        rw [e2]
        exact parseVal_strVal text (',' :: l3) n3)]
    simp [List.dropWhile_cons, show jsonWs ',' = false from by decide, h3]
  have h1 : parseItems (n1 + 1) ('"' :: S1) =
      some ([("filename", .jstr filename),
        ("extracted_text", .jstr text),
        ("extraction_date", .jstr extraction_date),
        ("metadata", .jobj mm), ("version", .jstr "1.0")], []) := by
    rw [parseItems_step n1 ('"' :: S1) "filename" (.jstr filename)
      (' ' :: (quoteChars filename ++ ',' :: l2)) (',' :: l2)
      (by
        rw [hS1def, List.dropWhile_cons,
          if_neg (by decide : ¬ jsonWs '"' = true)])
      (by
        rw [e1]
        exact parseVal_strVal filename (',' :: l2) n2)]
    simp [List.dropWhile_cons, show jsonWs ',' = false from by decide, h2]
  have hEdrop : E.dropWhile jsonWs = '\x7b' :: '\n' :: ' ' :: ' ' ::
      (quoteChars "filename" ++ ':' :: ' ' ::
        (quoteChars filename ++ ',' :: l2)) := by
    rw [hEeq, List.dropWhile_cons,
      if_neg (by decide : ¬ jsonWs '\x7b' = true)]
  have hrest : ('\n' :: ' ' :: ' ' ::
      (quoteChars "filename" ++ ':' :: ' ' ::
        (quoteChars filename ++ ',' :: l2))).dropWhile jsonWs =
      '"' :: S1 := by
    rw [hS1def]
    simp [quoteChars_append, List.dropWhile_cons,
      show jsonWs '\n' = true from by decide,
      show jsonWs ' ' = true from by decide,
      show jsonWs '"' = false from by decide]
  have htop : parseVal (E.length + 1) E =
      some (.jobj [("filename", .jstr filename),
        ("extracted_text", .jstr text),
        ("extraction_date", .jstr extraction_date),
        ("metadata", .jobj mm), ("version", .jstr "1.0")], []) := by
    rw [hlen]
    simp only [parseVal, hEdrop]
    simp only [show ¬ ('\x7b' : Char) = '"' from by decide,
      Bool.false_eq_true, if_false, if_pos rfl, hrest]
    rw [if_neg (by decide : ¬ ('"' : Char) = '\x7d'), h1]
    simp
  show (match parseVal (E.length + 1) E with
    | some (v, rest) =>
        if (rest.dropWhile jsonWs).isEmpty then some v else none
    | none => none) =
    some (.jobj [("filename", .jstr filename),
      ("extracted_text", .jstr text),
      ("extraction_date", .jstr extraction_date),
      ("metadata", .jobj mm), ("version", .jstr "1.0")])
  rw [htop]
  rfl
